import Mathlib

/-!
# Verification of `bokeh/server/application_context.py`

A shallow embedding of the session-registry core of
`src/bokeh/server/application_context.py`, together with proofs of its
specified properties.

The Python code runs on a single-threaded cooperative scheduler (tornado
`gen.coroutine`).  We embed it as a small-step transition system: every
maximal run of straight-line Python between two suspension points (a
`yield` of a future) becomes one atomic step of a `step` function; the
scheduler's freedom (which suspended coroutine to resume next, whether an
application-supplied hook raises, how the environment changes connection
counts and idle clocks between steps) is a `Choice` argument.  The three
registry dictionaries become association lists; `ServerSession` objects
become handles into a table of their registry-observable state.

Ghost instrumentation (never read by the modelled code itself):
an event log of destroy-hook / document-lock events for the temporal
claims, a per-future construction counter for the single-flight claim,
a provenance tag on completed create calls recording which pending future
they went through, and a count of logged-and-swallowed hook exceptions.
-/

set_option autoImplicit false

namespace Bokeh

/-- Session identifiers are strings; `create_session_if_needed` rejects
the empty string (lines 142-143 of the source). -/
abbrev SessionId := String

/-- The registry-observable state of one `ServerSession` object: its
immutable `id`, `connection_count`, `seconds_since_last_unsubscribe`,
`expiration_requested`, and whether `destroy()` has been called on it.
Idle time is modelled at whole-second granularity. -/
structure SessionObj where
  id : SessionId
  connection_count : Nat
  seconds_since_last_unsubscribe : Nat
  expiration_requested : Bool
  destroyed : Bool
deriving DecidableEq, Repr

/-- The `should_discard` closure defined inside
`ApplicationContext.cleanup_sessions` (source lines 214-217). -/
def should_discard (linger : Nat) (o : SessionObj) : Bool :=
  o.connection_count == 0 &&
    (decide (o.seconds_since_last_unsubscribe > linger) || o.expiration_requested)

/-! ## Association lists

Python dictionaries keyed by session id / handle, with lookup,
assignment and `del`.  `aldel` of an absent key is the identity; the only
`del` sites in the source (lines 162, 204, 205) delete keys they have just
looked up or published, so the `KeyError` case does not arise there. -/

/-- Dictionary lookup `d.get(k)`. -/
def alget {κ β : Type} [DecidableEq κ] (l : List (κ × β)) (k : κ) : Option β :=
  match l with
  | [] => none
  | p :: rest => if p.1 = k then some p.2 else alget rest k

/-- Dictionary deletion `del d[k]`. -/
def aldel {κ β : Type} [DecidableEq κ] (l : List (κ × β)) (k : κ) : List (κ × β) :=
  match l with
  | [] => []
  | p :: rest => if p.1 = k then aldel rest k else p :: aldel rest k

/-- Dictionary assignment `d[k] = v`. -/
def alset {κ β : Type} [DecidableEq κ] (l : List (κ × β)) (k : κ) (v : β) : List (κ × β) :=
  (k, v) :: aldel l k

/-! ## Coroutine continuations

One constructor per suspension point of each `gen.coroutine` in the
source, plus terminal states. -/

deriving instance DecidableEq for Except

/-- Failures that propagate to a coroutine's caller. -/
inductive Err
  /-- `ProtocolError` (empty session id, or unknown session in `get_session`). -/
  | protocolError
  /-- An exception of application-supplied code that no call site catches. -/
  | appError
  /-- A `KeyError` from a dictionary access. -/
  | keyError
deriving DecidableEq, Repr

/-- Continuations of `create_session_if_needed` (source lines 138-177). -/
inductive CreatePC
  /-- The creating call, suspended at line 155 awaiting the
  `on_session_created` hook; `fut` is the pending future it installed at
  line 147. -/
  | awaitHook (fut : Nat)
  /-- A joining call, suspended at line 173 awaiting an in-flight creation. -/
  | awaitJoin (fut : Nat)
  /-- The call returned `result`.  `src` is ghost provenance: the pending
  future this call resolved or joined, `none` for the fast path that read
  `sessions[id]` directly and for error returns. -/
  | done (result : Except Err Nat) (src : Option Nat)
deriving DecidableEq, Repr

/-- Continuations of `_discard_session` (source lines 186-210). -/
inductive DiscardPC
  /-- Suspended at line 194 awaiting the `on_session_destroyed` hook. -/
  | awaitHook
  /-- Suspended at line 208 awaiting the session's document lock. -/
  | awaitLock
  /-- Finished; `ok = false` means the `RuntimeError` of line 189 was raised. -/
  | done (ok : Bool)
deriving DecidableEq, Repr

/-- Continuations of `cleanup_sessions` (source lines 212-228); the inner
`_discard_session` runs nested inside the cleanup coroutine, so its
suspension points belong to the cleanup task. -/
inductive CleanupPC
  /-- Working on candidate `cur`, inside the nested `_discard_session`,
  with `rest` still to be considered afterwards. -/
  | running (rest : List Nat) (cur : Nat) (d : DiscardPC)
  /-- A nested discard just finished; suspended waiting to resume the loop
  over `rest`. -/
  | resuming (rest : List Nat)
  /-- The sweep finished normally. -/
  | done
  /-- The `RuntimeError` of line 189 propagated out of the sweep. -/
  | failed
deriving DecidableEq, Repr

/-- A live or finished coroutine. -/
inductive Task
  /-- A `create_session_if_needed(id)` call. -/
  | create (id : SessionId) (pc : CreatePC)
  /-- A `cleanup_sessions(linger)` call. -/
  | cleanup (linger : Nat) (pc : CleanupPC)
  /-- A direct `_discard_session(session, should_discard)` call, where the
  predicate is the `cleanup_sessions` closure for threshold `linger`. -/
  | discard (h : Nat) (linger : Nat) (pc : DiscardPC)
deriving DecidableEq, Repr

/-- Ghost event log entries, indexed by the task that performed them. -/
inductive HookEvent
  /-- `on_session_destroyed` was invoked (start of the await at line 194). -/
  | destroyHookStart (task : Nat)
  /-- The `on_session_destroyed` await completed (control is back past line 196). -/
  | destroyHookEnd (task : Nat)
  /-- The document lock of line 208 was acquired (and `do_discard` ran). -/
  | lockAcquired (task : Nat)
deriving DecidableEq, Repr

/-- The whole system: the three registry dictionaries of
`ApplicationContext.__init__` (lines 93-95), the table of session
objects, the table of pending futures (`none` = unresolved), fresh-handle
counters, the suspended/finished tasks, and the ghost instrumentation. -/
structure Sys where
  /-- `self._sessions` : id to session handle. -/
  sessions : List (SessionId × Nat)
  /-- `self._pending_sessions` : id to future handle. -/
  pending : List (SessionId × Nat)
  /-- `self._session_contexts` : id to the handle of the attached session. -/
  contexts : List (SessionId × Nat)
  /-- Futures by handle; the value is `some h` once resolved with session `h`. -/
  futures : List (Nat × Option Nat)
  /-- `ServerSession` objects by handle. -/
  sessState : List (Nat × SessionObj)
  nextFut : Nat
  nextSess : Nat
  tasks : List Task
  /-- Ghost: hook/lock event log for the temporal claims. -/
  log : List HookEvent
  /-- Ghost: how many hook exceptions were caught and logged. -/
  errlog : Nat
  /-- Ghost: per pending future, how many `ServerSession` constructions
  (line 161) were attributed to it. -/
  constructed : List (Nat × Nat)
deriving DecidableEq, Repr

def addTask (s : Sys) (t : Task) : Sys := { s with tasks := s.tasks ++ [t] }

def setTask (s : Sys) (i : Nat) (t : Task) : Sys := { s with tasks := s.tasks.set i t }

/-! ## The atomic blocks of the source, one definition each -/

/-- The entry block of `create_session_if_needed` (lines 142-155, falling
through to 170-173 for non-creating calls), which a `gen.coroutine` call
executes eagerly up to its first suspension point.  The emptiness check,
the double-absence check and the insertion of the fresh pending future
(lines 145-147) all happen inside this single atomic block. -/
def createEntry (s : Sys) (id : SessionId) : Sys :=
  if id.length = 0 then
    addTask s (.create id (.done (.error .protocolError) none))
  else if alget s.sessions id = none ∧ alget s.pending id = none then
    { s with pending := alset s.pending id s.nextFut,
             futures := alset s.futures s.nextFut none,
             constructed := alset s.constructed s.nextFut 0,
             nextFut := s.nextFut + 1,
             tasks := s.tasks ++ [.create id (.awaitHook s.nextFut)] }
  else
    match alget s.pending id with
    | some f => addTask s (.create id (.awaitJoin f))
    | none =>
      match alget s.sessions id with
      | some h => addTask s (.create id (.done (.ok h) none))
      | none => addTask s (.create id (.done (.error .keyError) none))

/-- The completion block of the creating call (lines 156-177), run when the
`on_session_created` await of line 155 resumes.  A hook exception was
caught and logged at lines 156-157 (`hookOk = false`), after which control
continues identically.  `docOk` is whether the application's
`initialize_document` call at line 159 returns normally: that call is
*outside* the `try`, so when it raises, the exception propagates out of
the coroutine and none of lines 161-168 run — the pending entry stays and
the future is never resolved.  On success: construct the `ServerSession`,
delete the pending entry, publish the session and the now-attached context,
and resolve the future, all without suspending; then lines 170-177 return
`sessions[id]`, which this same block just published. -/
def createComplete (s : Sys) (i : Nat) (id : SessionId) (f : Nat) (hookOk docOk : Bool) : Sys :=
  if docOk then
    { s with errlog := s.errlog + (if hookOk then 0 else 1),
             sessState := alset s.sessState s.nextSess ⟨id, 0, 0, false, false⟩,
             nextSess := s.nextSess + 1,
             pending := aldel s.pending id,
             sessions := alset s.sessions id s.nextSess,
             contexts := alset s.contexts id s.nextSess,
             futures := alset s.futures f (some s.nextSess),
             constructed := alset s.constructed f ((alget s.constructed f).getD 0 + 1),
             tasks := s.tasks.set i (.create id (.done (.ok s.nextSess) (some f))) }
  else
    { s with errlog := s.errlog + (if hookOk then 0 else 1),
             tasks := s.tasks.set i (.create id (.done (.error .appError) none)) }

/-- The `do_discard` callback of `_discard_session` (lines 200-207), run
synchronously while holding the session's document lock: re-check
eligibility against the *current* state, and either destroy the session
and delete its id from `sessions` and `contexts` (lines 203-205), or do
nothing at all (line 207). -/
def do_discard (s : Sys) (linger : Nat) (h : Nat) : Sys :=
  match alget s.sessState h with
  | none => s
  | some o =>
    if should_discard linger o then
      { s with sessState := alset s.sessState h { o with destroyed := true },
               sessions := aldel s.sessions o.id,
               contexts := aldel s.contexts o.id }
    else s

/-- The entry block of a direct `_discard_session` call (lines 187-194 up
to the first suspension): the `connection_count > 0` precondition check of
lines 188-189 raises `RuntimeError` before anything is touched; otherwise
the `on_session_destroyed` hook is invoked and the coroutine suspends
awaiting it. -/
def discardSpawn (s : Sys) (h : Nat) (linger : Nat) : Sys :=
  match alget s.sessState h with
  | none => s
  | some o =>
    if o.connection_count > 0 then
      addTask s (.discard h linger (.done false))
    else
      { s with tasks := s.tasks ++ [.discard h linger .awaitHook],
               log := s.log ++ [.destroyHookStart s.tasks.length] }

/-- The candidate loop of `cleanup_sessions` (lines 224-226): re-evaluate
`should_discard` against the *current* state immediately before each
discard, skipping candidates that no longer qualify, until the next
suspension point (the destroy hook of the next discarded candidate) or the
end of the list.  The nested `_discard_session` entry check of lines
188-189 is included; it cannot fire here because `should_discard` already
requires a zero connection count. -/
def cleanupLoop (s : Sys) (linger : Nat) (i : Nat) (cands : List Nat) :
    CleanupPC × List HookEvent :=
  match cands with
  | [] => (.done, [])
  | h :: rest =>
    match alget s.sessState h with
    | none => cleanupLoop s linger i rest
    | some o =>
      if should_discard linger o then
        if o.connection_count > 0 then (.failed, [])
        else (.running rest h .awaitHook, [.destroyHookStart i])
      else cleanupLoop s linger i rest

/-- The entry block of `cleanup_sessions` (lines 212-226 up to the first
suspension): snapshot `self._sessions.values()` into `to_discard`, filter
by `should_discard` (lines 219-222), then start the loop. -/
def cleanupSpawn (s : Sys) (linger : Nat) : Sys :=
  let cands := (s.sessions.map Prod.snd).filter
      (fun h => match alget s.sessState h with
                | some o => should_discard linger o
                | none => false)
  let r := cleanupLoop s linger s.tasks.length cands
  { s with tasks := s.tasks ++ [.cleanup linger r.1], log := s.log ++ r.2 }

/-- Resume the suspended task at index `i`.  `hookOk` resolves whether the
awaited application hook raised (both continuations are identical apart
from the logged error: lines 156-157 and 193-196 catch and discard the
exception).  `docOk` resolves whether `initialize_document` raises, used
only by the creating call.  A join of an unresolved future cannot be
resumed.  Granting the document lock to a task suspended at line 208 runs
`do_discard` synchronously. -/
def resumeTask (s : Sys) (i : Nat) (hookOk docOk : Bool) : Sys :=
  match s.tasks[i]? with
  | none => s
  | some (.create id pc) =>
    match pc with
    | .awaitHook f => createComplete s i id f hookOk docOk
    | .awaitJoin f =>
      match alget s.futures f with
      | some (some h) => setTask s i (.create id (.done (.ok h) (some f)))
      | _ => s
    | .done _ _ => s
  | some (.discard h linger pc) =>
    match pc with
    | .awaitHook =>
      { s with errlog := s.errlog + (if hookOk then 0 else 1),
               tasks := s.tasks.set i (.discard h linger .awaitLock),
               log := s.log ++ [.destroyHookEnd i] }
    | .awaitLock =>
      let s1 := do_discard s linger h
      { s1 with tasks := s1.tasks.set i (.discard h linger (.done true)),
                log := s1.log ++ [.lockAcquired i] }
    | .done _ => s
  | some (.cleanup linger pc) =>
    match pc with
    | .running rest cur .awaitHook =>
      { s with errlog := s.errlog + (if hookOk then 0 else 1),
               tasks := s.tasks.set i (.cleanup linger (.running rest cur .awaitLock)),
               log := s.log ++ [.destroyHookEnd i] }
    | .running rest cur .awaitLock =>
      let s1 := do_discard s linger cur
      { s1 with tasks := s1.tasks.set i (.cleanup linger (.resuming rest)),
                log := s1.log ++ [.lockAcquired i] }
    | .running _ _ (.done _) => s
    | .resuming rest =>
      let r := cleanupLoop s linger i rest
      { s with tasks := s.tasks.set i (.cleanup linger r.1), log := s.log ++ r.2 }
    | .done => s
    | .failed => s

/-- An environment step: between two scheduler steps, connections may
attach or detach, the idle clock advances, and expiration may be
requested on any live session object.  The immutable `id` and the
`destroyed` flag are not environment-controlled. -/
def envSet (s : Sys) (h : Nat) (conn secs : Nat) (expired : Bool) : Sys :=
  match alget s.sessState h with
  | none => s
  | some o =>
    let o1 := { o with connection_count := conn,
                       seconds_since_last_unsubscribe := secs,
                       expiration_requested := expired }
    { s with sessState := alset s.sessState h o1 }

/-- `ApplicationContext.get_session` (lines 179-184): a synchronous,
read-only lookup. -/
def get_session (s : Sys) (id : SessionId) : Except Err Nat :=
  match alget s.sessions id with
  | some h => Except.ok h
  | none => Except.error Err.protocolError

/-- One scheduler choice: spawn one of the three coroutines (a
`gen.coroutine` call runs eagerly to its first suspension point), resume a
suspended task, let the environment act, or perform a `get_session`
lookup (which never changes the registry). -/
inductive Choice
  | spawnCreate (id : SessionId)
  | spawnCleanup (linger : Nat)
  | spawnDiscard (h : Nat) (linger : Nat)
  | resume (i : Nat) (hookOk docOk : Bool)
  | envSet (h : Nat) (conn secs : Nat) (expired : Bool)
  | getSession (id : SessionId)
deriving DecidableEq, Repr

/-- The small-step transition function. -/
def step (s : Sys) (c : Choice) : Sys :=
  match c with
  | .spawnCreate id => createEntry s id
  | .spawnCleanup linger => cleanupSpawn s linger
  | .spawnDiscard h linger => discardSpawn s h linger
  | .resume i hookOk docOk => resumeTask s i hookOk docOk
  | .envSet h conn secs expired => envSet s h conn secs expired
  | .getSession _ => s

/-- The state of a fresh `ApplicationContext` (lines 89-96): all three
dictionaries empty, no tasks. -/
def startSys : Sys :=
  { sessions := [], pending := [], contexts := [], futures := [], sessState := [],
    nextFut := 0, nextSess := 0, tasks := [], log := [], errlog := 0, constructed := [] }

/-- Execute a schedule from the fresh state; every reachable state of the
system is `run cs` for some choice list `cs`. -/
def run (cs : List Choice) : Sys := cs.foldl step startSys

/-! ## Basic lemmas about the dictionary operations and task lists -/

@[simp]
theorem alget_aldel {κ β : Type} [DecidableEq κ] (l : List (κ × β)) (k k' : κ) :
    alget (aldel l k) k' = if k = k' then none else alget l k' := by
  induction l with
  | nil => simp [alget, aldel]
  | cons p rest ih =>
    by_cases hp : p.1 = k
    · by_cases hk : k = k' <;> simp_all [alget, aldel]
    · by_cases hp' : p.1 = k' <;> by_cases hk : k = k' <;>
        simp_all [alget, aldel]

@[simp]
theorem alget_alset {κ β : Type} [DecidableEq κ] (l : List (κ × β)) (k k' : κ) (v : β) :
    alget (alset l k v) k' = if k = k' then some v else alget l k' := by
  by_cases hk : k = k' <;> simp [alset, alget, hk]

theorem getElem_set {α : Type} (l : List α) (i j : Nat) (t : α) :
    (l.set i t)[j]? = if i = j then (if i < l.length then some t else none) else l[j]? := by
  induction l generalizing i j with
  | nil => simp
  | cons x rest ih =>
    cases i with
    | zero =>
      cases j <;> simp [List.set]
    | succ i' =>
      cases j with
      | zero => simp [List.set]
      | succ j' =>
        simp only [List.set, List.getElem?_cons_succ, List.length_cons, ih i' j']
        by_cases hij : i' = j' <;> simp [hij, Nat.succ_lt_succ_iff]

theorem getElem_app {α : Type} (l : List α) (t : α) (i : Nat) :
    (l ++ [t])[i]? = if i = l.length then some t else l[i]? := by
  induction l generalizing i with
  | nil => cases i <;> simp
  | cons x rest ih =>
    cases i with
    | zero => simp
    | succ i' => simpa [Nat.succ_inj] using ih i'

/-- Count the occurrences of one event in the log. -/
def cnt (e : HookEvent) (l : List HookEvent) : Nat :=
  match l with
  | [] => 0
  | x :: rest => (if x = e then 1 else 0) + cnt e rest

@[simp]
theorem cnt_nil (e : HookEvent) : cnt e [] = 0 := rfl

@[simp]
theorem cnt_append (e : HookEvent) (l1 l2 : List HookEvent) :
    cnt e (l1 ++ l2) = cnt e l1 + cnt e l2 := by
  induction l1 with
  | nil => simp [cnt]
  | cons x rest ih => simp [cnt, ih]; omega

/-- Any property that holds of the fresh context and is preserved by every
step holds of every reachable state. -/
theorem inv_run (Inv : Sys → Prop) (h0 : Inv startSys)
    (hstep : ∀ s c, Inv s → Inv (step s c)) (cs : List Choice) : Inv (run cs) := by
  suffices h : ∀ s, Inv s → Inv (cs.foldl step s) from h startSys h0
  induction cs with
  | nil => intro s hs; simpa using hs
  | cons c rest ih => intro s hs; exact ih (step s c) (hstep s c hs)

/-! ## How a step can change the three registry dictionaries

Every atomic block either leaves `sessions`/`pending`/`contexts` alone,
installs a fresh pending entry for an id absent from both `sessions` and
`pending` (creation entry, lines 145-147), publishes a session (creation
completion: delete pending, insert `sessions` and `contexts` under the
same id in the same block, lines 162-165), or unregisters an id from
`sessions` and `contexts` together (`do_discard`, lines 203-205). -/

def MapsSame (s s' : Sys) : Prop :=
  s'.sessions = s.sessions ∧ s'.pending = s.pending ∧ s'.contexts = s.contexts

theorem do_discard_maps (s : Sys) (linger h : Nat) :
    MapsSame s (do_discard s linger h) ∨
    (∃ id, (do_discard s linger h).sessions = aldel s.sessions id ∧
           (do_discard s linger h).pending = s.pending ∧
           (do_discard s linger h).contexts = aldel s.contexts id) := by
  unfold do_discard
  split
  · exact Or.inl ⟨rfl, rfl, rfl⟩
  · split
    · exact Or.inr ⟨_, rfl, rfl, rfl⟩
    · exact Or.inl ⟨rfl, rfl, rfl⟩

theorem step_maps (s : Sys) (c : Choice) :
    MapsSame s (step s c)
    ∨ (∃ id f, alget s.sessions id = none ∧ alget s.pending id = none ∧
        (step s c).sessions = s.sessions ∧ (step s c).pending = alset s.pending id f ∧
        (step s c).contexts = s.contexts)
    ∨ (∃ id hdl, (step s c).sessions = alset s.sessions id hdl ∧
        (step s c).pending = aldel s.pending id ∧
        (step s c).contexts = alset s.contexts id hdl)
    ∨ (∃ id, (step s c).sessions = aldel s.sessions id ∧
        (step s c).pending = s.pending ∧ (step s c).contexts = aldel s.contexts id) := by
  cases c with
  | spawnCreate id =>
    simp only [step, createEntry]
    split
    · exact Or.inl ⟨rfl, rfl, rfl⟩
    · split
      · rename_i hcond
        exact Or.inr (Or.inl ⟨id, s.nextFut, hcond.1, hcond.2, rfl, rfl, rfl⟩)
      · split
        · exact Or.inl ⟨rfl, rfl, rfl⟩
        · split
          · exact Or.inl ⟨rfl, rfl, rfl⟩
          · exact Or.inl ⟨rfl, rfl, rfl⟩
  | spawnCleanup linger => exact Or.inl ⟨rfl, rfl, rfl⟩
  | spawnDiscard h linger =>
    simp only [step, discardSpawn]
    split
    · exact Or.inl ⟨rfl, rfl, rfl⟩
    · split
      · exact Or.inl ⟨rfl, rfl, rfl⟩
      · exact Or.inl ⟨rfl, rfl, rfl⟩
  | resume i hookOk docOk =>
    simp only [step, resumeTask]
    split
    · exact Or.inl ⟨rfl, rfl, rfl⟩
    · rename_i id pc heq
      split
      · simp only [createComplete]
        split
        · exact Or.inr (Or.inr (Or.inl ⟨id, s.nextSess, rfl, rfl, rfl⟩))
        · exact Or.inl ⟨rfl, rfl, rfl⟩
      · split <;> exact Or.inl ⟨rfl, rfl, rfl⟩
      · exact Or.inl ⟨rfl, rfl, rfl⟩
    · rename_i h linger pc heq
      split
      · exact Or.inl ⟨rfl, rfl, rfl⟩
      · rcases do_discard_maps s linger h with hsame | ⟨id, e1, e2, e3⟩
        · exact Or.inl ⟨hsame.1, hsame.2.1, hsame.2.2⟩
        · exact Or.inr (Or.inr (Or.inr ⟨id, e1, e2, e3⟩))
      · exact Or.inl ⟨rfl, rfl, rfl⟩
    · rename_i linger pc heq
      split
      · exact Or.inl ⟨rfl, rfl, rfl⟩
      · rename_i rest cur
        rcases do_discard_maps s linger cur with hsame | ⟨id, e1, e2, e3⟩
        · exact Or.inl ⟨hsame.1, hsame.2.1, hsame.2.2⟩
        · exact Or.inr (Or.inr (Or.inr ⟨id, e1, e2, e3⟩))
      · exact Or.inl ⟨rfl, rfl, rfl⟩
      · exact Or.inl ⟨rfl, rfl, rfl⟩
      · exact Or.inl ⟨rfl, rfl, rfl⟩
      · exact Or.inl ⟨rfl, rfl, rfl⟩
  | envSet h conn secs expired =>
    simp only [step, envSet]
    split
    · exact Or.inl ⟨rfl, rfl, rfl⟩
    · exact Or.inl ⟨rfl, rfl, rfl⟩
  | getSession id => exact Or.inl ⟨rfl, rfl, rfl⟩

/-! ## C2: `sessions` and `pending` are mutually exclusive -/

/-- For every id, at most one of `sessions[id]`, `pending[id]` is present. -/
def AtMostOne (s : Sys) : Prop :=
  ∀ id : SessionId, alget s.sessions id = none ∨ alget s.pending id = none

theorem atMostOne_step (s : Sys) (c : Choice) (h : AtMostOne s) : AtMostOne (step s c) := by
  rcases step_maps s c with hsame | ⟨id, f, hs, _, e1, e2, _⟩ |
    ⟨id, hdl, e1, e2, _⟩ | ⟨id, e1, e2, _⟩
  · intro id'; rw [hsame.1, hsame.2.1]; exact h id'
  · intro id'
    rw [e1, e2, alget_alset]
    by_cases hid : id = id'
    · subst hid; exact Or.inl hs
    · rw [if_neg hid]; exact h id'
  · intro id'
    rw [e1, e2, alget_alset, alget_aldel]
    by_cases hid : id = id'
    · rw [if_pos hid, if_pos hid]; exact Or.inr rfl
    · rw [if_neg hid, if_neg hid]; exact h id'
  · intro id'
    rw [e1, e2, alget_aldel]
    by_cases hid : id = id'
    · rw [if_pos hid]; exact Or.inl rfl
    · rw [if_neg hid]; exact h id'

/-! ## C3: `contexts` tracks `sessions`, not `pending` -/

/-- In every reachable state the `contexts` dictionary agrees with the
`sessions` dictionary entry-by-entry; in particular, during an in-flight
creation (`pending[id]` present, session not yet published) there is no
`contexts[id]` entry — the context of line 151 lives only in a local
variable until line 165 publishes it. -/
def CtxTracksSessions (s : Sys) : Prop :=
  ∀ id : SessionId, alget s.contexts id = alget s.sessions id

theorem ctxTracks_step (s : Sys) (c : Choice) (h : CtxTracksSessions s) :
    CtxTracksSessions (step s c) := by
  rcases step_maps s c with hsame | ⟨id, f, _, _, e1, _, e3⟩ |
    ⟨id, hdl, e1, _, e3⟩ | ⟨id, e1, _, e3⟩
  · intro id'; rw [hsame.1, hsame.2.2]; exact h id'
  · intro id'; rw [e1, e3]; exact h id'
  · intro id'
    rw [e1, e3, alget_alset, alget_alset]
    by_cases hid : id = id'
    · rw [if_pos hid, if_pos hid]
    · rw [if_neg hid, if_neg hid]; exact h id'
  · intro id'
    rw [e1, e3, alget_aldel, alget_aldel]
    by_cases hid : id = id'
    · rw [if_pos hid, if_pos hid]
    · rw [if_neg hid, if_neg hid]; exact h id'

/-! ## C1: single-flight creation

Overlapping `create_session_if_needed` calls for the same id are exactly
the calls that go through the same pending future: the one that installed
it (lines 145-147, a single atomic block) and the ones that joined it at
line 173.  We prove: the future a creating call installed stays unresolved
with exactly zero constructions until that same call resolves it; at most
one live creating call exists per future; every completed call that went
through a future returned the value the future was resolved with; and no
future ever accounts for more than one `ServerSession` construction. -/

/-- Every future handle ever allocated is below the freshness counter. -/
def FutFresh (s : Sys) : Prop :=
  ∀ f v, alget s.futures f = some v → f < s.nextFut

/-- A creating call suspended at the creation hook (line 155) owns a
pending entry for its id, an unresolved future, and a construction count
of zero. -/
def CreatorOk (s : Sys) : Prop :=
  ∀ (i : Nat) (id : SessionId) (f : Nat),
    s.tasks[i]? = some (Task.create id (CreatePC.awaitHook f)) →
    alget s.pending id = some f ∧ alget s.futures f = some none ∧
    alget s.constructed f = some 0

/-- At most one live creating call per pending future. -/
def CreatorUnique (s : Sys) : Prop :=
  ∀ (i j : Nat) (id id' : SessionId) (f : Nat),
    s.tasks[i]? = some (Task.create id (CreatePC.awaitHook f)) →
    s.tasks[j]? = some (Task.create id' (CreatePC.awaitHook f)) → i = j

/-- A completed create call that went through future `f` returned exactly
the session `f` was resolved with. -/
def DoneOk (s : Sys) : Prop :=
  ∀ (i : Nat) (id : SessionId) (r f : Nat),
    s.tasks[i]? = some (Task.create id (CreatePC.done (Except.ok r) (some f))) →
    alget s.futures f = some (some r)

/-- No future accounts for more than one `ServerSession` construction. -/
def ConstrOnce (s : Sys) : Prop :=
  ∀ f n, alget s.constructed f = some n → n ≤ 1

def Inv1 (s : Sys) : Prop :=
  FutFresh s ∧ CreatorOk s ∧ CreatorUnique s ∧ DoneOk s ∧ ConstrOnce s

/-- Tasks whose appearance cannot break the single-flight invariants: any
task that is neither a live creating call nor a completed create call with
future provenance. -/
def TaskNeutral : Task → Prop
  | .create _ (.awaitHook _) => False
  | .create _ (.done (.ok _) (some _)) => False
  | _ => True

theorem inv1_frame (s s' : Sys) (hf : s'.futures = s.futures)
    (hp : s'.pending = s.pending) (hc : s'.constructed = s.constructed)
    (hn : s'.nextFut = s.nextFut) (ht : s'.tasks = s.tasks) (h : Inv1 s) : Inv1 s' := by
  obtain ⟨hF, hC, hU, hD, hK⟩ := h
  refine ⟨?_, ?_, ?_, ?_, ?_⟩
  · intro f v hv; rw [hf] at hv; rw [hn]; exact hF f v hv
  · intro i id f hi; rw [ht] at hi; rw [hf, hp, hc]; exact hC i id f hi
  · intro i j id id' f hi hj; rw [ht] at hi hj; exact hU i j id id' f hi hj
  · intro i id r f hi; rw [ht] at hi; rw [hf]; exact hD i id r f hi
  · intro f n hn'; rw [hc] at hn'; exact hK f n hn'

theorem inv1_append (s s' : Sys) (t : Task) (hf : s'.futures = s.futures)
    (hp : s'.pending = s.pending) (hc : s'.constructed = s.constructed)
    (hn : s'.nextFut = s.nextFut) (ht : s'.tasks = s.tasks ++ [t])
    (hneut : TaskNeutral t) (h : Inv1 s) : Inv1 s' := by
  obtain ⟨hF, hC, hU, hD, hK⟩ := h
  refine ⟨?_, ?_, ?_, ?_, ?_⟩
  · intro f v hv; rw [hf] at hv; rw [hn]; exact hF f v hv
  · intro i id f hi
    rw [ht, getElem_app] at hi
    rw [hf, hp, hc]
    by_cases hlen : i = s.tasks.length
    · rw [if_pos hlen] at hi
      obtain rfl := Option.some.inj hi
      exact absurd hneut (by simp [TaskNeutral])
    · rw [if_neg hlen] at hi
      exact hC i id f hi
  · intro i j id id' f hi hj
    rw [ht, getElem_app] at hi hj
    by_cases hi' : i = s.tasks.length
    · rw [if_pos hi'] at hi
      obtain rfl := Option.some.inj hi
      exact absurd hneut (by simp [TaskNeutral])
    · rw [if_neg hi'] at hi
      by_cases hj' : j = s.tasks.length
      · rw [if_pos hj'] at hj
        obtain rfl := Option.some.inj hj
        exact absurd hneut (by simp [TaskNeutral])
      · rw [if_neg hj'] at hj
        exact hU i j id id' f hi hj
  · intro i id r f hi
    rw [ht, getElem_app] at hi
    rw [hf]
    by_cases hlen : i = s.tasks.length
    · rw [if_pos hlen] at hi
      obtain rfl := Option.some.inj hi
      exact absurd hneut (by simp [TaskNeutral])
    · rw [if_neg hlen] at hi
      exact hD i id r f hi
  · intro f n hn'; rw [hc] at hn'; exact hK f n hn'

theorem inv1_set (s s' : Sys) (k : Nat) (t : Task) (hf : s'.futures = s.futures)
    (hp : s'.pending = s.pending) (hc : s'.constructed = s.constructed)
    (hn : s'.nextFut = s.nextFut) (ht : s'.tasks = s.tasks.set k t)
    (hneut : TaskNeutral t) (h : Inv1 s) : Inv1 s' := by
  obtain ⟨hF, hC, hU, hD, hK⟩ := h
  refine ⟨?_, ?_, ?_, ?_, ?_⟩
  · intro f v hv; rw [hf] at hv; rw [hn]; exact hF f v hv
  · intro i id f hi
    rw [ht, getElem_set] at hi
    rw [hf, hp, hc]
    by_cases hk : k = i
    · rw [if_pos hk] at hi
      by_cases hl : k < s.tasks.length
      · rw [if_pos hl] at hi
        obtain rfl := Option.some.inj hi
        exact absurd hneut (by simp [TaskNeutral])
      · rw [if_neg hl] at hi; exact absurd hi (by simp)
    · rw [if_neg hk] at hi
      exact hC i id f hi
  · intro i j id id' f hi hj
    rw [ht, getElem_set] at hi hj
    by_cases hki : k = i
    · rw [if_pos hki] at hi
      by_cases hl : k < s.tasks.length
      · rw [if_pos hl] at hi
        obtain rfl := Option.some.inj hi
        exact absurd hneut (by simp [TaskNeutral])
      · rw [if_neg hl] at hi; exact absurd hi (by simp)
    · rw [if_neg hki] at hi
      by_cases hkj : k = j
      · rw [if_pos hkj] at hj
        by_cases hl : k < s.tasks.length
        · rw [if_pos hl] at hj
          obtain rfl := Option.some.inj hj
          exact absurd hneut (by simp [TaskNeutral])
        · rw [if_neg hl] at hj; exact absurd hj (by simp)
      · rw [if_neg hkj] at hj
        exact hU i j id id' f hi hj
  · intro i id r f hi
    rw [ht, getElem_set] at hi
    rw [hf]
    by_cases hk : k = i
    · rw [if_pos hk] at hi
      by_cases hl : k < s.tasks.length
      · rw [if_pos hl] at hi
        obtain rfl := Option.some.inj hi
        exact absurd hneut (by simp [TaskNeutral])
      · rw [if_neg hl] at hi; exact absurd hi (by simp)
    · rw [if_neg hk] at hi
      exact hD i id r f hi
  · intro f n hn'; rw [hc] at hn'; exact hK f n hn'

theorem do_discard_frame (s : Sys) (linger h : Nat) :
    (do_discard s linger h).futures = s.futures ∧
    (do_discard s linger h).pending = s.pending ∧
    (do_discard s linger h).constructed = s.constructed ∧
    (do_discard s linger h).nextFut = s.nextFut ∧
    (do_discard s linger h).tasks = s.tasks := by
  unfold do_discard
  split
  · exact ⟨rfl, rfl, rfl, rfl, rfl⟩
  · split
    · exact ⟨rfl, rfl, rfl, rfl, rfl⟩
    · exact ⟨rfl, rfl, rfl, rfl, rfl⟩

/-- The creating branch of the entry block (lines 145-155) preserves the
single-flight invariants: the freshly installed future is unresolved,
unconstructed, and owned by exactly the new call. -/
theorem inv1_createEnter (s : Sys) (id : SessionId)
    (hp : alget s.pending id = none)
    (h : Inv1 s) :
    Inv1 { s with pending := alset s.pending id s.nextFut,
                  futures := alset s.futures s.nextFut none,
                  constructed := alset s.constructed s.nextFut 0,
                  nextFut := s.nextFut + 1,
                  tasks := s.tasks ++ [.create id (.awaitHook s.nextFut)] } := by
  obtain ⟨hF, hC, hU, hD, hK⟩ := h
  refine ⟨?_, ?_, ?_, ?_, ?_⟩
  · intro f v hv
    simp only [alget_alset] at hv
    show f < s.nextFut + 1
    by_cases hf : s.nextFut = f
    · omega
    · rw [if_neg hf] at hv
      have := hF f v hv
      omega
  · intro k id' f hk
    simp only [getElem_app] at hk
    by_cases hlen : k = s.tasks.length
    · rw [if_pos hlen] at hk
      obtain ⟨rfl, rfl⟩ : id = id' ∧ s.nextFut = f := by simpa using hk
      simp [alget_alset]
    · rw [if_neg hlen] at hk
      obtain ⟨hp', hf', hc'⟩ := hC k id' f hk
      refine ⟨?_, ?_, ?_⟩
      · have hid : ¬ id = id' := by
          intro hid; rw [hid] at hp; rw [hp] at hp'; exact Option.noConfusion hp'
        simp only [alget_alset, if_neg hid]
        exact hp'
      · by_cases hf : s.nextFut = f
        · simp [alget_alset, hf]
        · simp only [alget_alset, if_neg hf]; exact hf'
      · by_cases hf : s.nextFut = f
        · simp [alget_alset, hf]
        · simp only [alget_alset, if_neg hf]; exact hc'
  · intro i j id1 id2 f hi hj
    simp only [getElem_app] at hi hj
    by_cases hi' : i = s.tasks.length
    · rw [if_pos hi'] at hi
      obtain ⟨rfl, rfl⟩ : id = id1 ∧ s.nextFut = f := by simpa using hi
      by_cases hj' : j = s.tasks.length
      · rw [hi', hj']
      · rw [if_neg hj'] at hj
        obtain ⟨_, hf', _⟩ := hC j id2 s.nextFut hj
        have := hF s.nextFut none hf'
        omega
    · rw [if_neg hi'] at hi
      by_cases hj' : j = s.tasks.length
      · rw [if_pos hj'] at hj
        obtain ⟨rfl, rfl⟩ : id = id2 ∧ s.nextFut = f := by simpa using hj
        obtain ⟨_, hf', _⟩ := hC i id1 s.nextFut hi
        have := hF s.nextFut none hf'
        omega
      · rw [if_neg hj'] at hj
        exact hU i j id1 id2 f hi hj
  · intro k id' r f hk
    simp only [getElem_app] at hk
    by_cases hlen : k = s.tasks.length
    · rw [if_pos hlen] at hk
      exact absurd hk (by simp)
    · rw [if_neg hlen] at hk
      have hf' := hD k id' r f hk
      have hlt := hF f (some r) hf'
      have hne : ¬ s.nextFut = f := by omega
      simp only [alget_alset, if_neg hne]
      exact hf'
  · intro f n hn
    simp only [alget_alset] at hn
    by_cases hf : s.nextFut = f
    · rw [if_pos hf] at hn
      obtain rfl := Option.some.inj hn
      omega
    · rw [if_neg hf] at hn
      exact hK f n hn

/-- The completion block (lines 159-177, `docOk = true`) preserves the
single-flight invariants: the one creating call resolves its own future
with the one session it constructed. -/
theorem inv1_createComplete (s : Sys) (i : Nat) (id : SessionId) (f : Nat)
    (hookOk : Bool) (htask : s.tasks[i]? = some (.create id (.awaitHook f)))
    (h : Inv1 s) : Inv1 (createComplete s i id f hookOk true) := by
  obtain ⟨hF, hC, hU, hD, hK⟩ := h
  obtain ⟨hpend, hfut, hcon⟩ := hC i id f htask
  have hilen : i < s.tasks.length := by
    rcases List.getElem?_eq_some.mp htask with ⟨hl, _⟩
    exact hl
  simp only [createComplete, if_pos]
  refine ⟨?_, ?_, ?_, ?_, ?_⟩
  · intro g v hv
    simp only [alget_alset] at hv
    by_cases hg : f = g
    · subst hg; exact hF f none hfut
    · rw [if_neg hg] at hv
      exact hF g v hv
  · intro k id' f' hk
    simp only [getElem_set] at hk
    by_cases hik : i = k
    · rw [if_pos hik, if_pos (hik ▸ hilen)] at hk
      exact absurd hk (by simp)
    · rw [if_neg hik] at hk
      obtain ⟨hp', hf', hc'⟩ := hC k id' f' hk
      have hff : ¬ f = f' := by
        intro hff; subst hff
        exact hik (hU i k id id' f htask hk)
      have hid : ¬ id = id' := by
        intro hid; subst hid
        rw [hpend] at hp'
        exact hff (Option.some.inj hp')
      refine ⟨?_, ?_, ?_⟩
      · simp only [alget_aldel, if_neg hid]; exact hp'
      · simp only [alget_alset, if_neg hff]; exact hf'
      · simp only [alget_alset, if_neg hff]; exact hc'
  · intro j k id1 id2 f' hj hk
    simp only [getElem_set] at hj hk
    by_cases hij : i = j
    · rw [if_pos hij, if_pos (hij ▸ hilen)] at hj
      exact absurd hj (by simp)
    · rw [if_neg hij] at hj
      by_cases hik : i = k
      · rw [if_pos hik, if_pos (hik ▸ hilen)] at hk
        exact absurd hk (by simp)
      · rw [if_neg hik] at hk
        exact hU j k id1 id2 f' hj hk
  · intro k id' r f' hk
    simp only [getElem_set] at hk
    by_cases hik : i = k
    · rw [if_pos hik, if_pos (hik ▸ hilen)] at hk
      obtain ⟨rfl, rfl, rfl⟩ : id = id' ∧ s.nextSess = r ∧ f = f' := by simpa using hk
      simp [alget_alset]
    · rw [if_neg hik] at hk
      have hf' := hD k id' r f' hk
      have hff : ¬ f = f' := by
        intro hff; subst hff
        rw [hfut] at hf'
        simp at hf'
      simp only [alget_alset, if_neg hff]
      exact hf'
  · intro g n hg
    simp only [alget_alset] at hg
    by_cases hgf : f = g
    · rw [if_pos hgf] at hg
      obtain rfl := Option.some.inj hg
      rw [hcon]
      simp
    · rw [if_neg hgf] at hg
      exact hK g n hg

/-- Resuming a joining call on a resolved future (line 173) preserves the
single-flight invariants: the joiner returns the future's value. -/
theorem inv1_join (s : Sys) (i : Nat) (id : SessionId) (f hdl : Nat)
    (hfut : alget s.futures f = some (some hdl))
    (h : Inv1 s) : Inv1 (setTask s i (.create id (.done (.ok hdl) (some f)))) := by
  obtain ⟨hF, hC, hU, hD, hK⟩ := h
  refine ⟨hF, ?_, ?_, ?_, hK⟩
  · intro k id' f' hk
    simp only [setTask, getElem_set] at hk
    by_cases hik : i = k
    · rw [if_pos hik] at hk
      by_cases hl : i < s.tasks.length
      · rw [if_pos hl] at hk
        exact absurd hk (by simp)
      · rw [if_neg hl] at hk
        exact absurd hk (by simp)
    · rw [if_neg hik] at hk
      exact hC k id' f' hk
  · intro j k id1 id2 f' hj hk
    simp only [setTask, getElem_set] at hj hk
    by_cases hij : i = j
    · rw [if_pos hij] at hj
      by_cases hl : i < s.tasks.length
      · rw [if_pos hl] at hj
        exact absurd hj (by simp)
      · rw [if_neg hl] at hj
        exact absurd hj (by simp)
    · rw [if_neg hij] at hj
      by_cases hik : i = k
      · rw [if_pos hik] at hk
        by_cases hl : i < s.tasks.length
        · rw [if_pos hl] at hk
          exact absurd hk (by simp)
        · rw [if_neg hl] at hk
          exact absurd hk (by simp)
      · rw [if_neg hik] at hk
        exact hU j k id1 id2 f' hj hk
  · intro k id' r f' hk
    simp only [setTask, getElem_set] at hk
    by_cases hik : i = k
    · rw [if_pos hik] at hk
      by_cases hl : i < s.tasks.length
      · rw [if_pos hl] at hk
        obtain ⟨rfl, rfl, rfl⟩ : id = id' ∧ hdl = r ∧ f = f' := by simpa using hk
        exact hfut
      · rw [if_neg hl] at hk
        exact absurd hk (by simp)
    · rw [if_neg hik] at hk
      exact hD k id' r f' hk

/-- Every step preserves the single-flight invariants. -/
theorem inv1_step (s : Sys) (c : Choice) (h : Inv1 s) : Inv1 (step s c) := by
  cases c with
  | spawnCreate id =>
    simp only [step, createEntry]
    split
    · exact inv1_append s _ _ rfl rfl rfl rfl rfl trivial h
    · split
      · rename_i hcond
        exact inv1_createEnter s id hcond.2 h
      · split
        · exact inv1_append s _ _ rfl rfl rfl rfl rfl trivial h
        · split
          · exact inv1_append s _ _ rfl rfl rfl rfl rfl trivial h
          · exact inv1_append s _ _ rfl rfl rfl rfl rfl trivial h
  | spawnCleanup linger =>
    exact inv1_append s _ _ rfl rfl rfl rfl rfl trivial h
  | spawnDiscard hd linger =>
    simp only [step, discardSpawn]
    split
    · exact h
    · split
      · exact inv1_append s _ _ rfl rfl rfl rfl rfl trivial h
      · exact inv1_append s _ _ rfl rfl rfl rfl rfl trivial h
  | resume i hookOk docOk =>
    simp only [step, resumeTask]
    split
    · exact h
    · rename_i id pc heq
      split
      · rename_i f
        cases docOk with
        | true => exact inv1_createComplete s i id f hookOk heq h
        | false =>
          simp only [createComplete, Bool.false_eq_true, if_neg, if_false]
          exact inv1_set s _ i _ rfl rfl rfl rfl rfl trivial h
      · split
        · exact inv1_join s i _ _ _ (by assumption) h
        · exact h
      · exact h
    · rename_i hd linger pc heq
      split
      · exact inv1_set s _ i _ rfl rfl rfl rfl rfl trivial h
      · obtain ⟨e1, e2, e3, e4, e5⟩ := do_discard_frame s linger hd
        exact inv1_set s _ i (Task.discard hd linger (DiscardPC.done true))
          e1 e2 e3 e4 (by rw [e5]) trivial h
      · exact h
    · rename_i linger pc heq
      split
      · exact inv1_set s _ i _ rfl rfl rfl rfl rfl trivial h
      · rename_i rest cur
        obtain ⟨e1, e2, e3, e4, e5⟩ := do_discard_frame s linger cur
        exact inv1_set s _ i (Task.cleanup linger (CleanupPC.resuming rest))
          e1 e2 e3 e4 (by rw [e5]) trivial h
      · exact h
      · exact inv1_set s _ i _ rfl rfl rfl rfl rfl trivial h
      · exact h
      · exact h
  | envSet hd conn secs expired =>
    simp only [step, envSet]
    split
    · exact h
    · exact inv1_frame s _ rfl rfl rfl rfl rfl h
  | getSession id => exact h

/-- Once a future is resolved, exactly one `ServerSession` construction
was attributed to it. -/
def ResolvedOnce (s : Sys) : Prop :=
  ∀ f r, alget s.futures f = some (some r) → alget s.constructed f = some 1

theorem resolvedOnce_frame (s s' : Sys) (hf : s'.futures = s.futures)
    (hc : s'.constructed = s.constructed) (h : ResolvedOnce s) : ResolvedOnce s' := by
  intro f r hr
  rw [hf] at hr
  rw [hc]
  exact h f r hr

theorem resolvedOnce_step (s : Sys) (c : Choice) (h1 : Inv1 s) (h : ResolvedOnce s) :
    ResolvedOnce (step s c) := by
  obtain ⟨hF, hC, hU, hD, hK⟩ := h1
  cases c with
  | spawnCreate id =>
    simp only [step, createEntry]
    split
    · exact resolvedOnce_frame s _ rfl rfl h
    · split
      · intro f r hr
        simp only [alget_alset] at hr ⊢
        by_cases hf : s.nextFut = f
        · rw [if_pos hf] at hr
          exact absurd (Option.some.inj hr) (by simp)
        · rw [if_neg hf] at hr
          rw [if_neg hf]
          exact h f r hr
      · split
        · exact resolvedOnce_frame s _ rfl rfl h
        · split
          · exact resolvedOnce_frame s _ rfl rfl h
          · exact resolvedOnce_frame s _ rfl rfl h
  | spawnCleanup linger => exact resolvedOnce_frame s _ rfl rfl h
  | spawnDiscard hd linger =>
    simp only [step, discardSpawn]
    split
    · exact h
    · split
      · exact resolvedOnce_frame s _ rfl rfl h
      · exact resolvedOnce_frame s _ rfl rfl h
  | resume i hookOk docOk =>
    simp only [step, resumeTask]
    split
    · exact h
    · rename_i id pc heq
      split
      · rename_i f0
        cases docOk with
        | true =>
          obtain ⟨hpend, hfut, hcon⟩ := hC i id f0 heq
          simp only [createComplete, if_pos]
          intro f r hr
          simp only [alget_alset] at hr ⊢
          by_cases hf : f0 = f
          · rw [if_pos hf, hcon]
            simp
          · rw [if_neg hf] at hr
            rw [if_neg hf]
            exact h f r hr
        | false =>
          simp only [createComplete, Bool.false_eq_true, if_neg, if_false]
          exact resolvedOnce_frame s _ rfl rfl h
      · split
        · exact resolvedOnce_frame s _ rfl rfl h
        · exact h
      · exact h
    · rename_i hd linger pc heq
      split
      · exact resolvedOnce_frame s _ rfl rfl h
      · obtain ⟨e1, _, e3, _, _⟩ := do_discard_frame s linger hd
        exact resolvedOnce_frame s _ e1 e3 h
      · exact h
    · rename_i linger pc heq
      split
      · exact resolvedOnce_frame s _ rfl rfl h
      · rename_i rest cur
        obtain ⟨e1, _, e3, _, _⟩ := do_discard_frame s linger cur
        exact resolvedOnce_frame s _ e1 e3 h
      · exact h
      · exact resolvedOnce_frame s _ rfl rfl h
      · exact h
      · exact h
  | envSet hd conn secs expired =>
    simp only [step, envSet]
    split
    · exact h
    · exact resolvedOnce_frame s _ rfl rfl h
  | getSession id => exact h

/-! ## The invariants hold in every reachable state -/

theorem inv1_start : Inv1 startSys := by
  refine ⟨?_, ?_, ?_, ?_, ?_⟩
  · intro f v hv; exact absurd hv (by simp [startSys, alget])
  · intro i id f hi; exact absurd hi (by simp [startSys])
  · intro i j id id' f hi hj; exact absurd hi (by simp [startSys])
  · intro i id r f hi; exact absurd hi (by simp [startSys])
  · intro f n hn; exact absurd hn (by simp [startSys, alget])

theorem inv1_run (cs : List Choice) : Inv1 (run cs) :=
  inv_run Inv1 inv1_start inv1_step cs

theorem resolvedOnce_run (cs : List Choice) : ResolvedOnce (run cs) := by
  have hcomb : ∀ s' : Sys, (Inv1 s' ∧ ResolvedOnce s') → ResolvedOnce s' := fun _ hp => hp.2
  refine hcomb (run cs) (inv_run (fun s' => Inv1 s' ∧ ResolvedOnce s') ?_ ?_ cs)
  · refine ⟨inv1_start, ?_⟩
    intro f r hr; exact absurd hr (by simp [startSys, alget])
  · intro s' c hp
    exact ⟨inv1_step s' c hp.1, resolvedOnce_step s' c hp.1 hp.2⟩

theorem atMostOne_run (cs : List Choice) : AtMostOne (run cs) := by
  refine inv_run AtMostOne ?_ atMostOne_step cs
  intro id
  exact Or.inl (by simp [startSys, alget])

theorem ctxTracks_run (cs : List Choice) : CtxTracksSessions (run cs) := by
  refine inv_run CtxTracksSessions ?_ ctxTracks_step cs
  intro id
  rfl

/-! ## Claim theorems -/

/-- C1: single-flight creation.  (1) For a non-empty id absent from both
`sessions` and `pending`, the entry block of `create_session_if_needed`
installs the pending future and suspends the creating call in one atomic
step — there is no intermediate state in which the absence check has
happened but the pending entry is not yet installed.  (2) Any two
completed create calls that went through the same pending future (the
creating call and every overlapping joiner) returned the same session.
(3) and (4): no pending future ever accounts for more than one
`ServerSession` construction, and once it is resolved it accounts for
exactly one. -/
theorem single_flight_creation :
    (∀ (s : Sys) (id : SessionId), id.length ≠ 0 →
        alget s.sessions id = none → alget s.pending id = none →
        alget (step s (Choice.spawnCreate id)).pending id = some s.nextFut ∧
        (step s (Choice.spawnCreate id)).tasks =
          s.tasks ++ [Task.create id (CreatePC.awaitHook s.nextFut)]) ∧
    (∀ (cs : List Choice) (i j : Nat) (id1 id2 : SessionId) (r1 r2 f : Nat),
        (run cs).tasks[i]? = some (Task.create id1 (CreatePC.done (Except.ok r1) (some f))) →
        (run cs).tasks[j]? = some (Task.create id2 (CreatePC.done (Except.ok r2) (some f))) →
        r1 = r2) ∧
    (∀ (cs : List Choice) (f n : Nat),
        alget (run cs).constructed f = some n → n ≤ 1) ∧
    (∀ (cs : List Choice) (f r : Nat),
        alget (run cs).futures f = some (some r) →
        alget (run cs).constructed f = some 1) := by
  refine ⟨?_, ?_, ?_, ?_⟩
  · intro s id hne hs hp
    have h0 : ¬ id.length = 0 := hne
    simp only [step, createEntry, if_neg h0, if_pos (And.intro hs hp)]
    exact ⟨by simp [alget_alset], by trivial⟩
  · intro cs i j id1 id2 r1 r2 f hi hj
    have hinv := inv1_run cs
    have e1 := hinv.2.2.2.1 i id1 r1 f hi
    have e2 := hinv.2.2.2.1 j id2 r2 f hj
    rw [e1] at e2
    exact Option.some.inj (Option.some.inj e2)
  · intro cs f n hn
    exact (inv1_run cs).2.2.2.2 f n hn
  · intro cs f r hr
    exact resolvedOnce_run cs f r hr

/-- Witness for C1: two overlapping `create_session_if_needed("a")` calls
— the second arrives while the first is suspended in the creation hook —
both complete with session 0 through future 0, which accounts for exactly
one construction; and the concrete entry step installs the pending
future. -/
theorem single_flight_creation_witness :
    (run [Choice.spawnCreate "a", Choice.spawnCreate "a", Choice.resume 0 true true,
          Choice.resume 1 true true]).tasks[0]? =
        some (Task.create "a" (CreatePC.done (Except.ok 0) (some 0))) ∧
    (run [Choice.spawnCreate "a", Choice.spawnCreate "a", Choice.resume 0 true true,
          Choice.resume 1 true true]).tasks[1]? =
        some (Task.create "a" (CreatePC.done (Except.ok 0) (some 0))) ∧
    alget (run [Choice.spawnCreate "a", Choice.spawnCreate "a", Choice.resume 0 true true,
          Choice.resume 1 true true]).constructed 0 = some 1 ∧
    alget (step startSys (Choice.spawnCreate "a")).pending "a" = some startSys.nextFut ∧
    (0 : Nat) = 0 ∧ (1 : Nat) ≤ 1 :=
  ⟨by decide, by decide, by decide,
   (single_flight_creation.1 startSys "a" (by decide) (by decide) (by decide)).1,
   single_flight_creation.2.1
     [Choice.spawnCreate "a", Choice.spawnCreate "a", Choice.resume 0 true true,
      Choice.resume 1 true true] 0 1 "a" "a" 0 0 0 (by decide) (by decide),
   single_flight_creation.2.2.1
     [Choice.spawnCreate "a", Choice.spawnCreate "a", Choice.resume 0 true true,
      Choice.resume 1 true true] 0 1 (by decide)⟩

/-- C2: for every session id, in every reachable state of the registry —
under any interleaving of create, get, cleanup and discard steps — at
most one of `sessions[id]` and `pending[id]` is present. -/
theorem sessions_pending_never_both (cs : List Choice) (id : SessionId) :
    alget (run cs).sessions id = none ∨ alget (run cs).pending id = none :=
  atMostOne_run cs id

/-- Counterexample to C3 as stated: one step after `create_session_if_needed("a")`
has installed its pending entry and suspended in the creation hook, the
reachable state has `pending["a"]` present but no `contexts["a"]` entry
(and no `sessions["a"]`), so "`contexts[id]` exists iff `sessions[id]`
exists or `pending[id]` exists" fails in the pending-implies-contexts
direction. -/
theorem contexts_during_creation_counterexample :
    (alget (run [Choice.spawnCreate "a"]).pending "a").isSome = true ∧
    alget (run [Choice.spawnCreate "a"]).contexts "a" = none ∧
    alget (run [Choice.spawnCreate "a"]).sessions "a" = none ∧
    ¬ ((alget (run [Choice.spawnCreate "a"]).contexts "a").isSome = true ↔
       ((alget (run [Choice.spawnCreate "a"]).sessions "a").isSome = true ∨
        (alget (run [Choice.spawnCreate "a"]).pending "a").isSome = true)) := by
  decide

/-- C3 (amended): in every reachable state, the `contexts` dictionary
agrees with the `sessions` dictionary entry for entry: `contexts[id]`
exists iff `sessions[id]` exists (and holds the same session).  During an
in-flight creation the context exists only as a local of the creating
call; it is published at line 165, in the same atomic block that
publishes the session. -/
theorem contexts_iff_sessions (cs : List Choice) (id : SessionId) :
    alget (run cs).contexts id = alget (run cs).sessions id :=
  ctxTracks_run cs id

/-- Counterexample to C4 as stated: the claim promises completion
"regardless of what the application-supplied steps do", but
`initialize_document` (line 159) is an application-supplied step outside
the `try` of lines 154-157.  In the reachable state where it raised, the
creating coroutine has terminated with the exception, yet the pending
entry is still present, no session was published, and the future is still
unresolved — a joined caller would wait forever. -/
theorem creation_completion_counterexample :
    alget (run [Choice.spawnCreate "a", Choice.resume 0 true false]).pending "a" = some 0 ∧
    alget (run [Choice.spawnCreate "a", Choice.resume 0 true false]).sessions "a" = none ∧
    alget (run [Choice.spawnCreate "a", Choice.resume 0 true false]).futures 0 = some none ∧
    (run [Choice.spawnCreate "a", Choice.resume 0 true false]).tasks[0]? =
      some (Task.create "a" (CreatePC.done (Except.error Err.appError) none)) := by
  decide

/-- C4 (amended): once a creation has started, a failure of the
`on_session_created` hook alone cannot prevent completion: whether or not
the hook raised (`hookOk` arbitrary), provided the application's
document-setup step at line 159 returns normally, the resumption of the
creating call removes the pending entry, publishes the new session,
resolves the pending future with it, and returns it — and any joined
caller that subsequently resumes receives that same session.  (If the
document-setup step raises, the creating coroutine aborts and the pending
entry is left behind, unresolved — see the counterexample.) -/
theorem creation_runs_to_completion :
    (∀ (s : Sys) (i : Nat) (id : SessionId) (f : Nat) (hookOk : Bool),
      s.tasks[i]? = some (Task.create id (CreatePC.awaitHook f)) →
      alget (step s (Choice.resume i hookOk true)).pending id = none ∧
      alget (step s (Choice.resume i hookOk true)).sessions id = some s.nextSess ∧
      alget (step s (Choice.resume i hookOk true)).futures f = some (some s.nextSess) ∧
      (step s (Choice.resume i hookOk true)).tasks[i]? =
        some (Task.create id (CreatePC.done (Except.ok s.nextSess) (some f)))) ∧
    (∀ (s : Sys) (i : Nat) (id : SessionId) (f hdl : Nat) (hookOk docOk : Bool),
      s.tasks[i]? = some (Task.create id (CreatePC.awaitJoin f)) →
      alget s.futures f = some (some hdl) →
      (step s (Choice.resume i hookOk docOk)).tasks[i]? =
        some (Task.create id (CreatePC.done (Except.ok hdl) (some f)))) := by
  constructor
  · intro s i id f hookOk heq
    have hilen : i < s.tasks.length := by
      rcases List.getElem?_eq_some.mp heq with ⟨hl, _⟩
      exact hl
    simp only [step, resumeTask, heq, createComplete, if_pos]
    refine ⟨?_, ?_, ?_, ?_⟩
    · simp [alget_aldel]
    · simp [alget_alset]
    · simp [alget_alset]
    · rw [getElem_set, if_pos rfl, if_pos hilen]
  · intro s i id f hdl hookOk docOk heq hfut
    have hilen : i < s.tasks.length := by
      rcases List.getElem?_eq_some.mp heq with ⟨hl, _⟩
      exact hl
    simp only [step, resumeTask, heq, hfut, setTask]
    rw [getElem_set, if_pos rfl, if_pos hilen]

/-- Witness for C4 (amended): resuming the creating call of session "a"
after a *failing* creation hook still publishes session 0, clears the
pending entry and resolves future 0; a joiner suspended on future 0 then
receives session 0. -/
theorem creation_runs_to_completion_witness :
    (run [Choice.spawnCreate "a"]).tasks[0]? =
      some (Task.create "a" (CreatePC.awaitHook 0)) ∧
    alget (step (run [Choice.spawnCreate "a"]) (Choice.resume 0 false true)).pending "a"
      = none ∧
    alget (step (run [Choice.spawnCreate "a"]) (Choice.resume 0 false true)).sessions "a"
      = some 0 ∧
    alget (step (run [Choice.spawnCreate "a"]) (Choice.resume 0 false true)).futures 0
      = some (some 0) ∧
    (run [Choice.spawnCreate "a", Choice.spawnCreate "a", Choice.resume 0 false true]).tasks[1]?
      = some (Task.create "a" (CreatePC.awaitJoin 0)) ∧
    (step (run [Choice.spawnCreate "a", Choice.spawnCreate "a", Choice.resume 0 false true])
        (Choice.resume 1 true true)).tasks[1]?
      = some (Task.create "a" (CreatePC.done (Except.ok 0) (some 0))) :=
  ⟨by decide,
   ((creation_runs_to_completion.1 (run [Choice.spawnCreate "a"]) 0 "a" 0 false
      (by decide)).1),
   ((creation_runs_to_completion.1 (run [Choice.spawnCreate "a"]) 0 "a" 0 false
      (by decide)).2.1),
   ((creation_runs_to_completion.1 (run [Choice.spawnCreate "a"]) 0 "a" 0 false
      (by decide)).2.2.1),
   by decide,
   creation_runs_to_completion.2
     (run [Choice.spawnCreate "a", Choice.spawnCreate "a", Choice.resume 0 false true])
     1 "a" 0 0 true true (by decide) (by decide)⟩

/-- C5: when a `_discard_session` call suspended on the document lock
(line 208) is granted the lock, `do_discard` re-validates eligibility
against the *current* session state.  If the session is still eligible,
it is destroyed and its id is removed from both `sessions` and
`contexts`; if it is no longer eligible, the session object and all
registry dictionaries are left completely unchanged. -/
theorem discard_revalidates_under_lock :
    ∀ (s : Sys) (i h linger : Nat) (o : SessionObj) (hookOk docOk : Bool),
      s.tasks[i]? = some (Task.discard h linger DiscardPC.awaitLock) →
      alget s.sessState h = some o →
      (should_discard linger o = true →
        alget (step s (Choice.resume i hookOk docOk)).sessions o.id = none ∧
        alget (step s (Choice.resume i hookOk docOk)).contexts o.id = none ∧
        alget (step s (Choice.resume i hookOk docOk)).sessState h =
          some { o with destroyed := true }) ∧
      (should_discard linger o = false →
        (step s (Choice.resume i hookOk docOk)).sessions = s.sessions ∧
        (step s (Choice.resume i hookOk docOk)).pending = s.pending ∧
        (step s (Choice.resume i hookOk docOk)).contexts = s.contexts ∧
        (step s (Choice.resume i hookOk docOk)).sessState = s.sessState) := by
  intro s i h linger o hookOk docOk heq hso
  constructor
  · intro hsd
    simp only [step, resumeTask, heq, do_discard, hso, hsd, if_true]
    refine ⟨?_, ?_, ?_⟩ <;> simp [alget_aldel, alget_alset]
  · intro hsd
    simp only [step, resumeTask, heq, do_discard, hso, hsd, Bool.false_eq_true, if_false]
    exact ⟨by trivial, by trivial, by trivial, by trivial⟩

/-- Witness for C5, both branches, on reachable states.  Eligible branch:
session "a" (idle 10 s, no connections) discarded under the lock.
Ineligible branch: a connection attached during the destroy-hook window,
so the lock-step leaves everything untouched ("came back to life"). -/
theorem discard_revalidates_under_lock_witness :
    (run [Choice.spawnCreate "a", Choice.resume 0 true true, Choice.envSet 0 0 10 false,
          Choice.spawnDiscard 0 5, Choice.resume 1 true true]).tasks[1]? =
      some (Task.discard 0 5 DiscardPC.awaitLock) ∧
    alget (step (run [Choice.spawnCreate "a", Choice.resume 0 true true,
          Choice.envSet 0 0 10 false, Choice.spawnDiscard 0 5, Choice.resume 1 true true])
        (Choice.resume 1 true true)).sessions "a" = none ∧
    alget (step (run [Choice.spawnCreate "a", Choice.resume 0 true true,
          Choice.envSet 0 0 10 false, Choice.spawnDiscard 0 5, Choice.resume 1 true true])
        (Choice.resume 1 true true)).contexts "a" = none ∧
    (step (run [Choice.spawnCreate "a", Choice.resume 0 true true,
          Choice.envSet 0 0 10 false, Choice.spawnDiscard 0 5, Choice.resume 1 true true,
          Choice.envSet 0 1 10 false])
        (Choice.resume 1 true true)).sessions =
      (run [Choice.spawnCreate "a", Choice.resume 0 true true,
          Choice.envSet 0 0 10 false, Choice.spawnDiscard 0 5, Choice.resume 1 true true,
          Choice.envSet 0 1 10 false]).sessions := by
  refine ⟨by decide, ?_, ?_, ?_⟩
  · exact ((discard_revalidates_under_lock
      (run [Choice.spawnCreate "a", Choice.resume 0 true true, Choice.envSet 0 0 10 false,
            Choice.spawnDiscard 0 5, Choice.resume 1 true true])
      1 0 5 ⟨"a", 0, 10, false, false⟩ true true (by decide) (by decide)).1 (by decide)).1
  · exact ((discard_revalidates_under_lock
      (run [Choice.spawnCreate "a", Choice.resume 0 true true, Choice.envSet 0 0 10 false,
            Choice.spawnDiscard 0 5, Choice.resume 1 true true])
      1 0 5 ⟨"a", 0, 10, false, false⟩ true true (by decide) (by decide)).1 (by decide)).2.1
  · exact ((discard_revalidates_under_lock
      (run [Choice.spawnCreate "a", Choice.resume 0 true true, Choice.envSet 0 0 10 false,
            Choice.spawnDiscard 0 5, Choice.resume 1 true true, Choice.envSet 0 1 10 false])
      1 0 5 ⟨"a", 1, 10, false, false⟩ true true (by decide) (by decide)).2 (by decide)).1

/-- C8: calling `_discard_session` on a session with open connections
raises the `RuntimeError` of line 189 before anything else runs: the call
terminates exceptionally (`DiscardPC.done false`) and none of `sessions`,
`pending`, `contexts` or any session object is mutated. -/
theorem discard_with_connections_fails :
    ∀ (s : Sys) (h linger : Nat) (o : SessionObj),
      alget s.sessState h = some o →
      0 < o.connection_count →
      (step s (Choice.spawnDiscard h linger)).sessions = s.sessions ∧
      (step s (Choice.spawnDiscard h linger)).pending = s.pending ∧
      (step s (Choice.spawnDiscard h linger)).contexts = s.contexts ∧
      (step s (Choice.spawnDiscard h linger)).sessState = s.sessState ∧
      (step s (Choice.spawnDiscard h linger)).tasks =
        s.tasks ++ [Task.discard h linger (DiscardPC.done false)] := by
  intro s h linger o hso hconn
  simp only [step, discardSpawn, hso, if_pos hconn, addTask]
  exact ⟨by trivial, by trivial, by trivial, by trivial, by trivial⟩

/-- Witness for C8: discarding session "a" while it has one open
connection fails fatally and leaves the registry unchanged. -/
theorem discard_with_connections_fails_witness :
    alget (run [Choice.spawnCreate "a", Choice.resume 0 true true,
        Choice.envSet 0 1 10 false]).sessState 0 = some ⟨"a", 1, 10, false, false⟩ ∧
    (step (run [Choice.spawnCreate "a", Choice.resume 0 true true,
        Choice.envSet 0 1 10 false]) (Choice.spawnDiscard 0 5)).sessions =
      (run [Choice.spawnCreate "a", Choice.resume 0 true true,
        Choice.envSet 0 1 10 false]).sessions ∧
    (step (run [Choice.spawnCreate "a", Choice.resume 0 true true,
        Choice.envSet 0 1 10 false]) (Choice.spawnDiscard 0 5)).tasks =
      (run [Choice.spawnCreate "a", Choice.resume 0 true true,
        Choice.envSet 0 1 10 false]).tasks ++ [Task.discard 0 5 (DiscardPC.done false)] :=
  ⟨by decide,
   (discard_with_connections_fails
     (run [Choice.spawnCreate "a", Choice.resume 0 true true, Choice.envSet 0 1 10 false])
     0 5 ⟨"a", 1, 10, false, false⟩ (by decide) (by decide)).1,
   (discard_with_connections_fails
     (run [Choice.spawnCreate "a", Choice.resume 0 true true, Choice.envSet 0 1 10 false])
     0 5 ⟨"a", 1, 10, false, false⟩ (by decide) (by decide)).2.2.2.2⟩

theorem destroy_frame (s s' : Sys) (h : Nat) (o o' : SessionObj)
    (he : s'.sessState = s.sessState) (ho : alget s.sessState h = some o)
    (hod : o.destroyed = false) (ho' : alget s'.sessState h = some o')
    (ho'd : o'.destroyed = true) : o.connection_count = 0 := by
  rw [he, ho] at ho'
  obtain rfl := Option.some.inj ho'
  rw [hod] at ho'd
  exact absurd ho'd (by simp)

/-- Wherever `do_discard` destroys a session, the re-checked
`should_discard` guarantees its connection count is zero at that very
instant. -/
theorem do_discard_destroy (s : Sys) (linger hd h : Nat) (o o' : SessionObj)
    (ho : alget s.sessState h = some o) (hod : o.destroyed = false)
    (ho' : alget (do_discard s linger hd).sessState h = some o')
    (ho'd : o'.destroyed = true) : o.connection_count = 0 := by
  unfold do_discard at ho'
  rcases hcur : alget s.sessState hd with _ | o2
  · simp only [hcur] at ho'
    exact destroy_frame s s h o o' rfl ho hod ho' ho'd
  · simp only [hcur] at ho'
    by_cases hsd : should_discard linger o2 = true
    · rw [if_pos hsd] at ho'
      simp only [alget_alset] at ho'
      by_cases hh : hd = h
      · subst hh
        rw [if_pos rfl] at ho'
        obtain rfl : o = o2 := Option.some.inj (ho.symm.trans hcur)
        have := hsd
        unfold should_discard at this
        simp only [Bool.and_eq_true, beq_iff_eq] at this
        exact this.1
      · rw [if_neg hh] at ho'
        exact destroy_frame s s h o o' rfl ho hod ho' ho'd
    · rw [if_neg hsd] at ho'
      exact destroy_frame s s h o o' rfl ho hod ho' ho'd

/-- C9: the cleanup eligibility predicate is exactly
`connections == 0 AND (idle > threshold OR expiration requested)`, and —
because `cleanup_sessions` re-checks it before entering each discard and
`do_discard` re-checks it again under the document lock immediately
before destroying — whenever any step of the system destroys a session,
that session's connection count is zero at that instant: a session with
at least one connection is never discarded. -/
theorem cleanup_eligibility :
    (∀ (linger : Nat) (o : SessionObj),
        should_discard linger o = true ↔
          (o.connection_count = 0 ∧
           (linger < o.seconds_since_last_unsubscribe ∨ o.expiration_requested = true))) ∧
    (∀ (s : Sys) (c : Choice) (h : Nat) (o o' : SessionObj),
        alget s.sessState h = some o → o.destroyed = false →
        alget (step s c).sessState h = some o' → o'.destroyed = true →
        o.connection_count = 0) := by
  constructor
  · intro linger o
    unfold should_discard
    simp [Bool.and_eq_true, Bool.or_eq_true, beq_iff_eq, decide_eq_true_iff, Nat.lt_iff_add_one_le]
  · intro s c h o o' ho hod ho' ho'd
    cases c with
    | spawnCreate id =>
      simp only [step, createEntry] at ho'
      split at ho'
      · exact destroy_frame s _ h o o' rfl ho hod ho' ho'd
      · split at ho'
        · exact destroy_frame s _ h o o' rfl ho hod ho' ho'd
        · split at ho'
          · exact destroy_frame s _ h o o' rfl ho hod ho' ho'd
          · split at ho'
            · exact destroy_frame s _ h o o' rfl ho hod ho' ho'd
            · exact destroy_frame s _ h o o' rfl ho hod ho' ho'd
    | spawnCleanup linger =>
      exact destroy_frame s _ h o o' rfl ho hod ho' ho'd
    | spawnDiscard hd linger =>
      simp only [step, discardSpawn] at ho'
      split at ho'
      · exact destroy_frame s _ h o o' rfl ho hod ho' ho'd
      · split at ho'
        · exact destroy_frame s _ h o o' rfl ho hod ho' ho'd
        · exact destroy_frame s _ h o o' rfl ho hod ho' ho'd
    | resume i hookOk docOk =>
      simp only [step, resumeTask] at ho'
      split at ho'
      · exact destroy_frame s _ h o o' rfl ho hod ho' ho'd
      · rename_i id pc heq
        split at ho'
        · rename_i f
          simp only [createComplete] at ho'
          split at ho'
          · simp only [alget_alset] at ho'
            by_cases hn : s.nextSess = h
            · rw [if_pos hn] at ho'
              obtain rfl := Option.some.inj ho'
              exact absurd ho'd (by simp)
            · rw [if_neg hn] at ho'
              rw [ho] at ho'
              obtain rfl := Option.some.inj ho'
              rw [hod] at ho'd
              exact absurd ho'd (by simp)
          · exact destroy_frame s _ h o o' rfl ho hod ho' ho'd
        · split at ho'
          · exact destroy_frame s _ h o o' rfl ho hod ho' ho'd
          · exact destroy_frame s _ h o o' rfl ho hod ho' ho'd
        · exact destroy_frame s _ h o o' rfl ho hod ho' ho'd
      · rename_i hd linger pc heq
        split at ho'
        · exact destroy_frame s _ h o o' rfl ho hod ho' ho'd
        · exact do_discard_destroy s linger hd h o o' ho hod ho' ho'd
        · exact destroy_frame s _ h o o' rfl ho hod ho' ho'd
      · rename_i linger pc heq
        split at ho'
        · exact destroy_frame s _ h o o' rfl ho hod ho' ho'd
        · rename_i rest cur
          exact do_discard_destroy s linger cur h o o' ho hod ho' ho'd
        · exact destroy_frame s _ h o o' rfl ho hod ho' ho'd
        · exact destroy_frame s _ h o o' rfl ho hod ho' ho'd
        · exact destroy_frame s _ h o o' rfl ho hod ho' ho'd
        · exact destroy_frame s _ h o o' rfl ho hod ho' ho'd
    | envSet hd conn secs expired =>
      simp only [step, envSet] at ho'
      split at ho'
      · exact destroy_frame s _ h o o' rfl ho hod ho' ho'd
      · rename_i o2 hcur
        simp only [alget_alset] at ho'
        by_cases hh : hd = h
        · subst hh
          rw [if_pos rfl] at ho'
          obtain rfl := Option.some.inj ho'
          obtain rfl : o = o2 := Option.some.inj (ho.symm.trans hcur)
          rw [hod] at ho'd
          exact absurd ho'd (by simp)
        · rw [if_neg hh] at ho'
          rw [ho] at ho'
          obtain rfl := Option.some.inj ho'
          rw [hod] at ho'd
          exact absurd ho'd (by simp)
    | getSession id =>
      exact destroy_frame s _ h o o' rfl ho hod ho' ho'd

/-- Witness for C9: the spec scenario.  `cleanup(5)` against session "a",
idle 10 s with 0 connections, destroys it (the destroying lock-step
satisfies all hypotheses of the safety conjunct, whose conclusion yields
the zero connection count); against the same session with 1 connection,
the sweep selects nothing and the session survives untouched. -/
theorem cleanup_eligibility_witness :
    (should_discard 5 ⟨"a", 0, 10, false, false⟩ = true ∧
     (0 : Nat) = 0 ∧ ((5 : Nat) < 10 ∨ (false : Bool) = true)) ∧
    ((0 : Nat) = 0) ∧
    alget (run [Choice.spawnCreate "a", Choice.resume 0 true true, Choice.envSet 0 0 10 false,
        Choice.spawnCleanup 5, Choice.resume 1 true true, Choice.resume 1 true true]).sessions "a"
      = none ∧
    alget (run [Choice.spawnCreate "a", Choice.resume 0 true true, Choice.envSet 0 0 10 false,
        Choice.spawnCleanup 5, Choice.resume 1 true true, Choice.resume 1 true true]).sessState 0
      = some ⟨"a", 0, 10, false, true⟩ ∧
    should_discard 5 ⟨"a", 1, 10, false, false⟩ = false ∧
    (run [Choice.spawnCreate "a", Choice.resume 0 true true, Choice.envSet 0 1 10 false,
        Choice.spawnCleanup 5]).tasks[1]? = some (Task.cleanup 5 CleanupPC.done) ∧
    alget (run [Choice.spawnCreate "a", Choice.resume 0 true true, Choice.envSet 0 1 10 false,
        Choice.spawnCleanup 5]).sessions "a" = some 0 :=
  ⟨⟨by decide, by decide,
    (cleanup_eligibility.1 5 ⟨"a", 0, 10, false, false⟩).mp (by decide) |>.2⟩,
   cleanup_eligibility.2
     (run [Choice.spawnCreate "a", Choice.resume 0 true true, Choice.envSet 0 0 10 false,
        Choice.spawnCleanup 5, Choice.resume 1 true true])
     (Choice.resume 1 true true) 0 ⟨"a", 0, 10, false, false⟩ ⟨"a", 0, 10, false, true⟩
     (by decide) (by decide) (by decide) (by decide),
   by decide, by decide, by decide, by decide, by decide⟩

/-! ## C6: the destroy hook completes strictly before the lock is acquired

`_discard_session` awaits `on_session_destroyed` at line 194 and only
afterwards requests the document lock at line 208.  The ghost log records
`destroyHookStart` when the hook is invoked, `destroyHookEnd` when its
await completes, and `lockAcquired` when the lock of line 208 is granted
(the lock is held only inside that one atomic block, which runs after the
hook has completed, so the hook never runs under the lock).  We prove the
count inequalities `lockAcquired ≤ destroyHookEnd ≤ destroyHookStart`
per task over the logs of *all* schedules; since the log of every prefix
of a schedule is a prefix of its log, this says each lock acquisition is
preceded by a completed hook await of the same task. -/

@[simp]
theorem cnt_concat (e x : HookEvent) (l : List HookEvent) :
    cnt e (l ++ [x]) = cnt e l + (if x = e then 1 else 0) := by
  rw [cnt_append]
  simp [cnt]

/-- The task is suspended at the document-lock await of line 208. -/
def AtLock : Task → Prop
  | Task.discard _ _ DiscardPC.awaitLock => True
  | Task.cleanup _ (CleanupPC.running _ _ DiscardPC.awaitLock) => True
  | _ => False

/-- The task is suspended at the destroy-hook await of line 194. -/
def AtHook : Task → Prop
  | Task.discard _ _ DiscardPC.awaitHook => True
  | Task.cleanup _ (CleanupPC.running _ _ DiscardPC.awaitHook) => True
  | _ => False

def Inv6 (s : Sys) : Prop :=
  ∀ i : Nat,
    cnt (HookEvent.lockAcquired i) s.log ≤ cnt (HookEvent.destroyHookEnd i) s.log ∧
    cnt (HookEvent.destroyHookEnd i) s.log ≤ cnt (HookEvent.destroyHookStart i) s.log ∧
    (∀ t, s.tasks[i]? = some t → AtLock t →
      cnt (HookEvent.lockAcquired i) s.log < cnt (HookEvent.destroyHookEnd i) s.log) ∧
    (∀ t, s.tasks[i]? = some t → AtHook t →
      cnt (HookEvent.destroyHookEnd i) s.log < cnt (HookEvent.destroyHookStart i) s.log) ∧
    (s.tasks.length ≤ i → cnt (HookEvent.destroyHookStart i) s.log = 0)

theorem inv6_frame (s s' : Sys) (hl : s'.log = s.log) (ht : s'.tasks = s.tasks)
    (h : Inv6 s) : Inv6 s' := by
  intro i
  rw [hl, ht]
  exact h i

/-- Appending a task that is at neither await, without logging. -/
theorem inv6_append (s s' : Sys) (t : Task) (hl : s'.log = s.log)
    (ht : s'.tasks = s.tasks ++ [t]) (h1 : ¬ AtLock t) (h2 : ¬ AtHook t)
    (h : Inv6 s) : Inv6 s' := by
  intro i
  obtain ⟨c1, c2, c3, c4, c5⟩ := h i
  rw [hl, ht]
  refine ⟨c1, c2, ?_, ?_, ?_⟩
  · intro t0 ht0 hat
    rw [getElem_app] at ht0
    by_cases hi : i = s.tasks.length
    · rw [if_pos hi] at ht0
      obtain rfl := Option.some.inj ht0
      exact absurd hat h1
    · rw [if_neg hi] at ht0
      exact c3 t0 ht0 hat
  · intro t0 ht0 hat
    rw [getElem_app] at ht0
    by_cases hi : i = s.tasks.length
    · rw [if_pos hi] at ht0
      obtain rfl := Option.some.inj ht0
      exact absurd hat h2
    · rw [if_neg hi] at ht0
      exact c4 t0 ht0 hat
  · intro hlen
    rw [List.length_append] at hlen
    exact c5 (by simpa using Nat.le_of_succ_le hlen)

/-- Replacing one task by one that is at neither await, without logging. -/
theorem inv6_set (s s' : Sys) (k : Nat) (t : Task) (hl : s'.log = s.log)
    (ht : s'.tasks = s.tasks.set k t) (h1 : ¬ AtLock t) (h2 : ¬ AtHook t)
    (h : Inv6 s) : Inv6 s' := by
  intro i
  obtain ⟨c1, c2, c3, c4, c5⟩ := h i
  rw [hl, ht]
  refine ⟨c1, c2, ?_, ?_, ?_⟩
  · intro t0 ht0 hat
    rw [getElem_set] at ht0
    by_cases hk : k = i
    · rw [if_pos hk] at ht0
      by_cases hkl : k < s.tasks.length
      · rw [if_pos hkl] at ht0
        obtain rfl := Option.some.inj ht0
        exact absurd hat h1
      · rw [if_neg hkl] at ht0
        exact absurd ht0 (by simp)
    · rw [if_neg hk] at ht0
      exact c3 t0 ht0 hat
  · intro t0 ht0 hat
    rw [getElem_set] at ht0
    by_cases hk : k = i
    · rw [if_pos hk] at ht0
      by_cases hkl : k < s.tasks.length
      · rw [if_pos hkl] at ht0
        obtain rfl := Option.some.inj ht0
        exact absurd hat h2
      · rw [if_neg hkl] at ht0
        exact absurd ht0 (by simp)
    · rw [if_neg hk] at ht0
      exact c4 t0 ht0 hat
  · intro hlen
    rw [List.length_set] at hlen
    exact c5 hlen

/-- Spawning a task suspended at its destroy hook, logging the
`destroyHookStart` of the fresh index. -/
theorem inv6_spawn_hook (s s' : Sys) (t : Task)
    (hl : s'.log = s.log ++ [HookEvent.destroyHookStart s.tasks.length])
    (ht : s'.tasks = s.tasks ++ [t]) (h1 : ¬ AtLock t)
    (h : Inv6 s) : Inv6 s' := by
  intro i
  obtain ⟨c1, c2, c3, c4, c5⟩ := h i
  rw [hl, ht]
  by_cases hi : i = s.tasks.length
  · subst hi
    have hs0 : cnt (HookEvent.destroyHookStart s.tasks.length) s.log = 0 := c5 le_rfl
    have he0 : cnt (HookEvent.destroyHookEnd s.tasks.length) s.log = 0 := by omega
    have hl0 : cnt (HookEvent.lockAcquired s.tasks.length) s.log = 0 := by omega
    refine ⟨by simp [cnt, hs0, he0, hl0], by simp [cnt, hs0, he0, hl0], ?_, ?_, ?_⟩
    · intro t0 ht0 hat
      rw [getElem_app, if_pos rfl] at ht0
      obtain rfl := Option.some.inj ht0
      exact absurd hat h1
    · intro t0 ht0 hat
      simp [cnt, hs0, he0]
    · intro hlen
      exfalso
      rw [List.length_append, List.length_singleton] at hlen
      omega
  · have es : cnt (HookEvent.destroyHookStart i)
        (s.log ++ [HookEvent.destroyHookStart s.tasks.length]) =
        cnt (HookEvent.destroyHookStart i) s.log := by
      have hcond : ¬ (HookEvent.destroyHookStart s.tasks.length =
          HookEvent.destroyHookStart i) := by
        simp only [HookEvent.destroyHookStart.injEq]
        exact fun hx => hi hx.symm
      rw [cnt_concat, if_neg hcond]
      omega
    have ee : cnt (HookEvent.destroyHookEnd i)
        (s.log ++ [HookEvent.destroyHookStart s.tasks.length]) =
        cnt (HookEvent.destroyHookEnd i) s.log := by
      rw [cnt_concat, if_neg (by simp)]
      omega
    have el : cnt (HookEvent.lockAcquired i)
        (s.log ++ [HookEvent.destroyHookStart s.tasks.length]) =
        cnt (HookEvent.lockAcquired i) s.log := by
      rw [cnt_concat, if_neg (by simp)]
      omega
    rw [es, ee, el]
    refine ⟨c1, c2, ?_, ?_, ?_⟩
    · intro t0 ht0 hat
      rw [getElem_app, if_neg hi] at ht0
      exact c3 t0 ht0 hat
    · intro t0 ht0 hat
      rw [getElem_app, if_neg hi] at ht0
      exact c4 t0 ht0 hat
    · intro hlen
      rw [List.length_append] at hlen
      exact c5 (by omega)

theorem cnt_concat_ne (e x : HookEvent) (l : List HookEvent) (h : ¬ x = e) :
    cnt e (l ++ [x]) = cnt e l := by
  rw [cnt_concat, if_neg h]
  omega

/-- The destroy-hook await of task `k` completes (line 194 resumes): logs
`destroyHookEnd k` and moves the task onward (to the lock await). -/
theorem inv6_hook_end (s s' : Sys) (k : Nat) (t0 t' : Task)
    (hl : s'.log = s.log ++ [HookEvent.destroyHookEnd k])
    (ht : s'.tasks = s.tasks.set k t')
    (hold : s.tasks[k]? = some t0) (hat0 : AtHook t0) (h2 : ¬ AtHook t')
    (h : Inv6 s) : Inv6 s' := by
  have hklen : k < s.tasks.length := by
    rcases List.getElem?_eq_some.mp hold with ⟨hx, _⟩
    exact hx
  intro i
  obtain ⟨c1, c2, c3, c4, c5⟩ := h i
  rw [hl, ht]
  by_cases hi : i = k
  · subst hi
    have hend : cnt (HookEvent.destroyHookEnd i) (s.log ++ [HookEvent.destroyHookEnd i]) =
        cnt (HookEvent.destroyHookEnd i) s.log + 1 := by
      rw [cnt_concat, if_pos rfl]
    have hst := cnt_concat_ne (HookEvent.destroyHookStart i) (HookEvent.destroyHookEnd i)
      s.log (by simp)
    have hlo := cnt_concat_ne (HookEvent.lockAcquired i) (HookEvent.destroyHookEnd i)
      s.log (by simp)
    rw [hend, hst, hlo]
    have hlt := c4 t0 hold hat0
    refine ⟨by omega, by omega, ?_, ?_, ?_⟩
    · intro t'' ht'' _
      omega
    · intro t'' ht'' hat''
      rw [getElem_set, if_pos rfl, if_pos hklen] at ht''
      obtain rfl := Option.some.inj ht''
      exact absurd hat'' h2
    · intro hlen
      rw [List.length_set] at hlen
      omega
  · have hend := cnt_concat_ne (HookEvent.destroyHookEnd i) (HookEvent.destroyHookEnd k)
      s.log (by simp only [HookEvent.destroyHookEnd.injEq]; exact fun hx => hi hx.symm)
    have hst := cnt_concat_ne (HookEvent.destroyHookStart i) (HookEvent.destroyHookEnd k)
      s.log (by simp)
    have hlo := cnt_concat_ne (HookEvent.lockAcquired i) (HookEvent.destroyHookEnd k)
      s.log (by simp)
    rw [hend, hst, hlo]
    refine ⟨c1, c2, ?_, ?_, ?_⟩
    · intro t'' ht'' hat''
      rw [getElem_set, if_neg (fun hx => hi hx.symm)] at ht''
      exact c3 t'' ht'' hat''
    · intro t'' ht'' hat''
      rw [getElem_set, if_neg (fun hx => hi hx.symm)] at ht''
      exact c4 t'' ht'' hat''
    · intro hlen
      rw [List.length_set] at hlen
      exact c5 hlen

/-- The document lock of line 208 is granted to task `k`: logs
`lockAcquired k`, runs `do_discard`, and the task moves past the lock. -/
theorem inv6_lock_step (s s' : Sys) (k : Nat) (t0 t' : Task)
    (hl : s'.log = s.log ++ [HookEvent.lockAcquired k])
    (ht : s'.tasks = s.tasks.set k t')
    (hold : s.tasks[k]? = some t0) (hat0 : AtLock t0)
    (h1 : ¬ AtLock t') (h2 : ¬ AtHook t')
    (h : Inv6 s) : Inv6 s' := by
  have hklen : k < s.tasks.length := by
    rcases List.getElem?_eq_some.mp hold with ⟨hx, _⟩
    exact hx
  intro i
  obtain ⟨c1, c2, c3, c4, c5⟩ := h i
  rw [hl, ht]
  by_cases hi : i = k
  · subst hi
    have hlo : cnt (HookEvent.lockAcquired i) (s.log ++ [HookEvent.lockAcquired i]) =
        cnt (HookEvent.lockAcquired i) s.log + 1 := by
      rw [cnt_concat, if_pos rfl]
    have hst := cnt_concat_ne (HookEvent.destroyHookStart i) (HookEvent.lockAcquired i)
      s.log (by simp)
    have hend := cnt_concat_ne (HookEvent.destroyHookEnd i) (HookEvent.lockAcquired i)
      s.log (by simp)
    rw [hlo, hst, hend]
    have hlt := c3 t0 hold hat0
    refine ⟨by omega, c2, ?_, ?_, ?_⟩
    · intro t'' ht'' hat''
      rw [getElem_set, if_pos rfl, if_pos hklen] at ht''
      obtain rfl := Option.some.inj ht''
      exact absurd hat'' h1
    · intro t'' ht'' hat''
      rw [getElem_set, if_pos rfl, if_pos hklen] at ht''
      obtain rfl := Option.some.inj ht''
      exact absurd hat'' h2
    · intro hlen
      rw [List.length_set] at hlen
      omega
  · have hlo := cnt_concat_ne (HookEvent.lockAcquired i) (HookEvent.lockAcquired k)
      s.log (by simp only [HookEvent.lockAcquired.injEq]; exact fun hx => hi hx.symm)
    have hst := cnt_concat_ne (HookEvent.destroyHookStart i) (HookEvent.lockAcquired k)
      s.log (by simp)
    have hend := cnt_concat_ne (HookEvent.destroyHookEnd i) (HookEvent.lockAcquired k)
      s.log (by simp)
    rw [hlo, hst, hend]
    refine ⟨c1, c2, ?_, ?_, ?_⟩
    · intro t'' ht'' hat''
      rw [getElem_set, if_neg (fun hx => hi hx.symm)] at ht''
      exact c3 t'' ht'' hat''
    · intro t'' ht'' hat''
      rw [getElem_set, if_neg (fun hx => hi hx.symm)] at ht''
      exact c4 t'' ht'' hat''
    · intro hlen
      rw [List.length_set] at hlen
      exact c5 hlen

/-- The cleanup loop of task `k` starts the destroy hook of its next
candidate: logs a new `destroyHookStart k` for the same task index. -/
theorem inv6_restart (s s' : Sys) (k : Nat) (t' : Task)
    (hl : s'.log = s.log ++ [HookEvent.destroyHookStart k])
    (ht : s'.tasks = s.tasks.set k t')
    (hklen : k < s.tasks.length) (h1 : ¬ AtLock t')
    (h : Inv6 s) : Inv6 s' := by
  intro i
  obtain ⟨c1, c2, c3, c4, c5⟩ := h i
  rw [hl, ht]
  by_cases hi : i = k
  · subst hi
    have hstp : cnt (HookEvent.destroyHookStart i)
        (s.log ++ [HookEvent.destroyHookStart i]) =
        cnt (HookEvent.destroyHookStart i) s.log + 1 := by
      rw [cnt_concat, if_pos rfl]
    have hend := cnt_concat_ne (HookEvent.destroyHookEnd i) (HookEvent.destroyHookStart i)
      s.log (by simp)
    have hlo := cnt_concat_ne (HookEvent.lockAcquired i) (HookEvent.destroyHookStart i)
      s.log (by simp)
    rw [hstp, hend, hlo]
    refine ⟨c1, by omega, ?_, ?_, ?_⟩
    · intro t'' ht'' hat''
      rw [getElem_set, if_pos rfl, if_pos hklen] at ht''
      obtain rfl := Option.some.inj ht''
      exact absurd hat'' h1
    · intro t'' ht'' hat''
      omega
    · intro hlen
      rw [List.length_set] at hlen
      omega
  · have hstp := cnt_concat_ne (HookEvent.destroyHookStart i) (HookEvent.destroyHookStart k)
      s.log (by simp only [HookEvent.destroyHookStart.injEq]; exact fun hx => hi hx.symm)
    have hend := cnt_concat_ne (HookEvent.destroyHookEnd i) (HookEvent.destroyHookStart k)
      s.log (by simp)
    have hlo := cnt_concat_ne (HookEvent.lockAcquired i) (HookEvent.destroyHookStart k)
      s.log (by simp)
    rw [hstp, hend, hlo]
    refine ⟨c1, c2, ?_, ?_, ?_⟩
    · intro t'' ht'' hat''
      rw [getElem_set, if_neg (fun hx => hi hx.symm)] at ht''
      exact c3 t'' ht'' hat''
    · intro t'' ht'' hat''
      rw [getElem_set, if_neg (fun hx => hi hx.symm)] at ht''
      exact c4 t'' ht'' hat''
    · intro hlen
      rw [List.length_set] at hlen
      exact c5 hlen

/-- The cleanup loop either finishes without a new suspension and without
logging, or stops at the next candidate's destroy hook, logging exactly
one `destroyHookStart` for its own task index. -/
theorem cleanupLoop_spec (s : Sys) (linger i : Nat) (cands : List Nat) :
    ((cleanupLoop s linger i cands).2 = [] ∧
      ¬ AtLock (Task.cleanup linger (cleanupLoop s linger i cands).1) ∧
      ¬ AtHook (Task.cleanup linger (cleanupLoop s linger i cands).1)) ∨
    ((cleanupLoop s linger i cands).2 = [HookEvent.destroyHookStart i] ∧
      ¬ AtLock (Task.cleanup linger (cleanupLoop s linger i cands).1)) := by
  induction cands with
  | nil =>
    exact Or.inl ⟨rfl, by simp [AtLock, cleanupLoop], by simp [AtHook, cleanupLoop]⟩
  | cons hd rest ih =>
    simp only [cleanupLoop]
    split
    · exact ih
    · split
      · split
        · exact Or.inl ⟨rfl, by simp [AtLock], by simp [AtHook]⟩
        · exact Or.inr ⟨rfl, by simp [AtLock]⟩
      · exact ih

theorem do_discard_log (s : Sys) (linger h : Nat) : (do_discard s linger h).log = s.log := by
  unfold do_discard
  split
  · rfl
  · split
    · rfl
    · rfl

/-- Every step preserves the hook/lock ordering counts. -/
theorem inv6_step (s : Sys) (c : Choice) (h : Inv6 s) : Inv6 (step s c) := by
  cases c with
  | spawnCreate id =>
    simp only [step, createEntry]
    split
    · exact inv6_append s _ _ rfl rfl (by simp [AtLock]) (by simp [AtHook]) h
    · split
      · exact inv6_append s _ _ rfl rfl (by simp [AtLock]) (by simp [AtHook]) h
      · split
        · exact inv6_append s _ _ rfl rfl (by simp [AtLock]) (by simp [AtHook]) h
        · split
          · exact inv6_append s _ _ rfl rfl (by simp [AtLock]) (by simp [AtHook]) h
          · exact inv6_append s _ _ rfl rfl (by simp [AtLock]) (by simp [AtHook]) h
  | spawnCleanup linger =>
    simp only [step, cleanupSpawn]
    rcases cleanupLoop_spec s linger s.tasks.length
        ((s.sessions.map Prod.snd).filter (fun hh =>
          match alget s.sessState hh with
          | some o => should_discard linger o
          | none => false)) with ⟨he, h1, h2⟩ | ⟨he, h1⟩
    · refine inv6_append s _ _ ?_ rfl h1 h2 h
      rw [he]
      simp
    · refine inv6_spawn_hook s _ _ ?_ rfl h1 h
      rw [he]
  | spawnDiscard hd linger =>
    simp only [step, discardSpawn]
    split
    · exact h
    · split
      · exact inv6_append s _ _ rfl rfl (by simp [AtLock]) (by simp [AtHook]) h
      · exact inv6_spawn_hook s _ _ rfl rfl (by simp [AtLock]) h
  | resume i hookOk docOk =>
    simp only [step, resumeTask]
    split
    · exact h
    · rename_i id pc heq
      split
      · rename_i f
        simp only [createComplete]
        split
        · exact inv6_set s _ i _ rfl rfl (by simp [AtLock]) (by simp [AtHook]) h
        · exact inv6_set s _ i _ rfl rfl (by simp [AtLock]) (by simp [AtHook]) h
      · split
        · exact inv6_set s _ i _ rfl rfl (by simp [AtLock]) (by simp [AtHook]) h
        · exact h
      · exact h
    · rename_i hd linger pc heq
      split
      · exact inv6_hook_end s _ i _ (Task.discard hd linger DiscardPC.awaitLock)
          rfl rfl heq trivial (by simp [AtHook]) h
      · obtain ⟨_, _, _, _, e5⟩ := do_discard_frame s linger hd
        exact inv6_lock_step s _ i _ (Task.discard hd linger (DiscardPC.done true))
          (by rw [do_discard_log]) (by rw [e5]) heq trivial
          (by simp [AtLock]) (by simp [AtHook]) h
      · exact h
    · rename_i linger pc heq
      split
      · rename_i rest cur
        exact inv6_hook_end s _ i _
          (Task.cleanup linger (CleanupPC.running rest cur DiscardPC.awaitLock))
          rfl rfl heq trivial (by simp [AtHook]) h
      · rename_i rest cur
        obtain ⟨_, _, _, _, e5⟩ := do_discard_frame s linger cur
        exact inv6_lock_step s _ i _ (Task.cleanup linger (CleanupPC.resuming rest))
          (by rw [do_discard_log]) (by rw [e5]) heq trivial
          (by simp [AtLock]) (by simp [AtHook]) h
      · exact h
      · rename_i rest
        have hklen : i < s.tasks.length := by
          rcases List.getElem?_eq_some.mp heq with ⟨hx, _⟩
          exact hx
        rcases cleanupLoop_spec s linger i rest with ⟨he, h1, h2⟩ | ⟨he, h1⟩
        · refine inv6_set s _ i _ ?_ rfl h1 h2 h
          rw [he]
          simp
        · refine inv6_restart s _ i _ ?_ rfl hklen h1 h
          rw [he]
      · exact h
      · exact h
  | envSet hd conn secs expired =>
    simp only [step, envSet]
    split
    · exact h
    · exact inv6_frame s _ rfl rfl h
  | getSession id => exact h

theorem inv6_start : Inv6 startSys := by
  intro i
  refine ⟨le_rfl, le_rfl, ?_, ?_, ?_⟩
  · intro t ht
    exact absurd ht (by simp [startSys])
  · intro t ht
    exact absurd ht (by simp [startSys])
  · intro _
    rfl

theorem inv6_run (cs : List Choice) : Inv6 (run cs) :=
  inv_run Inv6 inv6_start inv6_step cs

/-- C6: in every schedule, per task, the number of acquisitions of the
document lock for teardown never exceeds the number of completed
`on_session_destroyed` awaits, which never exceeds the number of hook
invocations.  Since the ghost log of a prefix of a schedule is a prefix
of its log, these inequalities over all schedules say that each
`lockAcquired` event of a discard is strictly preceded by the matching
`destroyHookEnd` of the same task: the destroy hook is invoked and fully
awaited before the document lock of line 208 is acquired, and because the
lock is held only inside the atomic `do_discard` block — which runs after
the hook completed — the hook never executes while the lock is held. -/
theorem destroy_hook_before_lock (cs : List Choice) (i : Nat) :
    cnt (HookEvent.lockAcquired i) (run cs).log ≤
      cnt (HookEvent.destroyHookEnd i) (run cs).log ∧
    cnt (HookEvent.destroyHookEnd i) (run cs).log ≤
      cnt (HookEvent.destroyHookStart i) (run cs).log :=
  ⟨(inv6_run cs i).1, (inv6_run cs i).2.1⟩

/-! ## C7: hook failures are caught, logged and invisible

The four hook call sites are lines 119-125 (`on_server_loaded`), 128-136
(`on_server_unloaded`), 154-157 (`on_session_created`) and 193-196
(`on_session_destroyed`).  The two asynchronous sites are part of the
`step` semantics: the `hookOk` scheduler choice resolves whether the
awaited hook raised, and because the `except` clauses only log, both
resolutions continue identically — we prove the resulting states are
equal in every component except the ghost error-log counter.  The two
synchronous sites are modelled by functions whose total return type *is*
the embedding of the `try/except`: a raising hook yields a logged error,
never a propagated exception. -/

/-- Forget the ghost count of logged hook failures. -/
def stripErr (s : Sys) : Sys := { s with errlog := 0 }

/-- Outcome of a synchronous server-lifecycle hook call. -/
inductive HookOutcome
  /-- returned normally -/
  | ok
  /-- raised an exception (caught by the `except Exception` clause) -/
  | raises
  /-- returned a Future (logged as an error, lines 121-123 / 130-132) -/
  | returnsFuture
deriving DecidableEq, Repr

/-- The callbacks registered through a `_CallbackGroup`. -/
structure CallbackGroup where
  callbacks : List Nat
deriving DecidableEq, Repr

/-- `BokehServerContext._remove_all_callbacks` (lines 23-24). -/
def remove_all_callbacks (_g : CallbackGroup) : CallbackGroup :=
  { callbacks := [] }

/-- `ApplicationContext.run_load_hook` (lines 118-125): call
`on_server_loaded`; log when it raises or returns a Future.  The return
value is the number of errors logged; the absence of an error channel in
the type embeds the fact that the call site catches every exception. -/
def run_load_hook (hk : HookOutcome) : Nat :=
  match hk with
  | .ok => 0
  | .raises => 1
  | .returnsFuture => 1

/-- `ApplicationContext.run_unload_hook` (lines 127-136): call
`on_server_unloaded` under the same `try/except`, then — unconditionally —
remove all callbacks of the server context (line 136). -/
def run_unload_hook (hk : HookOutcome) (g : CallbackGroup) : CallbackGroup × Nat :=
  match hk with
  | .ok => (remove_all_callbacks g, 0)
  | .raises => (remove_all_callbacks g, 1)
  | .returnsFuture => (remove_all_callbacks g, 1)

/-- C7: an exception raised inside any of the four application hooks is
caught at the call site and only logged.  (1) For the two awaited hooks
(session created, line 155; session destroyed, line 194): resuming any
task with a raising hook yields exactly the same successor state as with
a succeeding hook, apart from the logged error — the surrounding
lifecycle operation proceeds identically and the exception reaches no
caller.  (2) The unload path removes all callbacks and returns the same
context whatever the hook did, and (3) the load path merely logs; both
are total functions, so nothing propagates. -/
theorem hook_failures_are_invisible :
    (∀ (s : Sys) (i : Nat) (docOk : Bool),
        stripErr (step s (Choice.resume i true docOk)) =
          stripErr (step s (Choice.resume i false docOk))) ∧
    (∀ (hk : HookOutcome) (g : CallbackGroup),
        (run_unload_hook hk g).1 = (run_unload_hook HookOutcome.ok g).1 ∧
        (run_unload_hook hk g).1.callbacks = []) ∧
    (run_load_hook HookOutcome.ok = 0 ∧ run_load_hook HookOutcome.raises = 1 ∧
        run_load_hook HookOutcome.returnsFuture = 1) := by
  refine ⟨?_, ?_, ⟨rfl, rfl, rfl⟩⟩
  · intro s i docOk
    simp only [step, resumeTask]
    split
    · rfl
    · rename_i id pc heq
      split
      · cases docOk with
        | true => rfl
        | false => rfl
      · split
        · rfl
        · rfl
      · rfl
    · split
      · rfl
      · rfl
      · rfl
    · split
      · rfl
      · rfl
      · rfl
      · rfl
      · rfl
      · rfl
  · intro hk g
    cases hk with
    | ok => exact ⟨rfl, rfl⟩
    | raises => exact ⟨rfl, rfl⟩
    | returnsFuture => exact ⟨rfl, rfl⟩

/-! ## C10: `BokehSessionContext.with_locked_document` (lines 66-73)

In the Unattached state (`self._session is None`, the
`on_session_created` window) the action is invoked and *awaited*:
`yield yield_for_all_futures(func(self._document))` — the caller's
coroutine completes only after the action ran, and an exception of the
action propagates to the caller (there is no `try` around line 71).  In
the Attached state, line 73 calls
`self._session.with_document_locked(func, self._document)` with *no*
`yield`: the returned future is discarded, the coroutine immediately runs
to its end returning `None`, and the delegated action runs later inside
the session's lock executor; whatever it returns or raises reaches
nobody. -/

/-- A `BokehSessionContext` is Unattached until `_set_session` (line 63). -/
inductive CtxAttach
  | unattached
  | attached (sess : Nat)
deriving DecidableEq, Repr

/-- Position of one `with_locked_document(func)` caller; `action`
identifies `func` and `raises` says whether `func` will raise when run. -/
inductive CallerPC
  /-- the call was made; its eager part has not run yet -/
  | start (attach : CtxAttach) (action : Nat) (raises : Bool)
  /-- unattached state: suspended at line 71 awaiting `func(doc)` -/
  | awaitingAction (action : Nat) (raises : Bool)
  /-- the coroutine finished with this outcome -/
  | finished (r : Except Unit Unit)
deriving DecidableEq, Repr

/-- One caller of `with_locked_document` plus the session's document-lock
executor: its queue of submitted, not-yet-run actions, and the actions
that have run (with whether they raised). -/
structure CtxSys where
  caller : CallerPC
  queue : List (Nat × Bool)
  ran : List (Nat × Bool)
deriving DecidableEq, Repr

inductive CtxChoice
  /-- advance the caller's coroutine -/
  | runCaller
  /-- the lock executor runs the next queued action -/
  | drain
deriving DecidableEq, Repr

/-- Small-step semantics of `with_locked_document` together with the lock
executor (see the section comment for the line-by-line reading). -/
def ctxStep (s : CtxSys) (c : CtxChoice) : CtxSys :=
  match c with
  | .runCaller =>
    match s.caller with
    | .start .unattached a r => { s with caller := .awaitingAction a r }
    | .start (.attached _) a r =>
        { s with caller := .finished (Except.ok ()), queue := s.queue ++ [(a, r)] }
    | .awaitingAction a r =>
        { s with caller := .finished (if r then Except.error () else Except.ok ()),
                 ran := s.ran ++ [(a, r)] }
    | .finished _ => s
  | .drain =>
    match s.queue with
    | [] => s
    | q :: rest => { s with queue := rest, ran := s.ran ++ [q] }

/-- C10: in the Attached state, `with_locked_document` submits the action
without awaiting it.  (1) The caller's coroutine completes — with a plain
`ok`, whatever the action will do — in the very step that merely enqueues
the action; at that instant the action has not run.  (2) A finished
caller's outcome is never changed by any later step, in particular not by
the executor running the delegated action and the action raising: the
action's result or exception is not propagated.  (3) Contrast, Unattached
state: the caller first suspends awaiting the action, and completes only
in the step in which the action actually runs, receiving the action's own
outcome — its exception propagates. -/
theorem attached_with_locked_document_not_awaited :
    (∀ (sess a : Nat) (r : Bool) (q ran : List (Nat × Bool)),
      ctxStep ⟨CallerPC.start (CtxAttach.attached sess) a r, q, ran⟩ CtxChoice.runCaller =
        ⟨CallerPC.finished (Except.ok ()), q ++ [(a, r)], ran⟩) ∧
    (∀ (s : CtxSys) (c : CtxChoice) (res : Except Unit Unit),
      s.caller = CallerPC.finished res → (ctxStep s c).caller = CallerPC.finished res) ∧
    (∀ (a : Nat) (r : Bool) (q ran : List (Nat × Bool)),
      ctxStep ⟨CallerPC.start CtxAttach.unattached a r, q, ran⟩ CtxChoice.runCaller =
        ⟨CallerPC.awaitingAction a r, q, ran⟩ ∧
      ctxStep ⟨CallerPC.awaitingAction a r, q, ran⟩ CtxChoice.runCaller =
        ⟨CallerPC.finished (if r then Except.error () else Except.ok ()), q,
          ran ++ [(a, r)]⟩) := by
  refine ⟨fun _ _ _ _ _ => rfl, ?_, fun _ _ _ _ => ⟨rfl, rfl⟩⟩
  intro s c res hres
  cases c with
  | runCaller =>
    simp only [ctxStep, hres]
  | drain =>
    simp only [ctxStep]
    split
    · exact hres
    · rename_i q rest heq
      exact hres

/-- Witness for C10: a concrete attached-state trace.  The caller
completes with `ok` in one step while its raising action is still only
queued; the executor then runs the action (which raises), and the
caller's recorded outcome is unchanged. -/
theorem attached_with_locked_document_not_awaited_witness :
    ctxStep ⟨CallerPC.start (CtxAttach.attached 7) 1 true, [], []⟩ CtxChoice.runCaller =
      ⟨CallerPC.finished (Except.ok ()), [(1, true)], []⟩ ∧
    (ctxStep (ctxStep ⟨CallerPC.start (CtxAttach.attached 7) 1 true, [], []⟩
        CtxChoice.runCaller) CtxChoice.drain).ran = [(1, true)] ∧
    (ctxStep (ctxStep ⟨CallerPC.start (CtxAttach.attached 7) 1 true, [], []⟩
        CtxChoice.runCaller) CtxChoice.drain).caller =
      CallerPC.finished (Except.ok ()) :=
  ⟨attached_with_locked_document_not_awaited.1 7 1 true [] [],
   by decide,
   attached_with_locked_document_not_awaited.2.1
     (ctxStep ⟨CallerPC.start (CtxAttach.attached 7) 1 true, [], []⟩ CtxChoice.runCaller)
     CtxChoice.drain (Except.ok ()) (by decide)⟩

end Bokeh
